import Mathlib

/-!
Shallow embedding of the euromillions-predictor analytics and strategy core
(`src/analytics.py`, `src/strategies.py`, `src/core/draws.py`) together with
proofs about the claims of the specification.

Conventions of the embedding:
* Python values that flow into the core's coercion helpers are modelled by the
  inductive `PyVal` (`None`, `int`, `float`, `str`, `datetime.date`,
  `datetime.datetime`).  Python floats are modelled as rationals (every float
  is a rational; `int(float)` truncates toward zero).
* `collections.Counter` objects are modelled as association lists
  `List (PyVal × Int)` in insertion order: keys may be arbitrary values (the
  code coerces them with `int(...)`), counts are integers (`Counter` values
  produced by counting are always `int`).
* Python's pseudo-random source is modelled by a stream of natural numbers
  (`Rs := List Nat`), consumed one number per primitive call:
  `random.randint lo hi` becomes `lo + r % (hi - lo + 1)` and
  `random.choices(choices, weights, k=1)` picks by cumulative weight at
  `r % total`.  A `ValueError` raised by `random.choices`/`random.sample`
  is modelled by an `Option` result being `none`.
* Python's `sorted` is modelled by `List.insertionSort` with a reflexive
  comparison, which is a stable sort exactly like CPython's.
-/

namespace EMPred

/-- Model of the Python values reaching the core's coercion helpers. -/
inductive PyVal where
  | vNone : PyVal
  | vInt (n : Int) : PyVal
  | vFloat (q : Rat) : PyVal
  | vStr (s : String) : PyVal
  | vDate (y m d : Nat) : PyVal
  | vDatetime (y m d : Nat) : PyVal
deriving DecidableEq

/-- Numeric value of a decimal digit character. -/
def digitVal (c : Char) : Nat := c.toNat - 48

/-- Digit-run parser for `int(str)`: decimal digits with single underscores
allowed between digits (CPython's grammar for integer literals in `int()`). -/
def parseDigitsAux : List Char → Nat → Option Nat
  | [], acc => some acc
  | '_' :: c :: rest, acc =>
      if c.isDigit then parseDigitsAux rest (acc * 10 + digitVal c) else none
  | c :: rest, acc =>
      if c.isDigit then parseDigitsAux rest (acc * 10 + digitVal c) else none

/-- Python's `str.strip()` on a character list: drop whitespace from both
ends.  (Implemented on `List Char` so that it reduces inside the kernel.) -/
def pyStrip (cs : List Char) : List Char :=
  (((cs.dropWhile Char.isWhitespace).reverse).dropWhile Char.isWhitespace).reverse

/-- Model of Python's `int(str)` (base 10): optional surrounding whitespace,
optional sign, then a digit run.  Returns `none` where CPython raises
`ValueError`. -/
def strToIntOpt (s : String) : Option Int :=
  match pyStrip s.toList with
  | [] => none
  | '+' :: rest =>
      match rest with
      | [] => none
      | c :: _ =>
          if c.isDigit then (parseDigitsAux rest 0).map (fun n => (n : Int)) else none
  | '-' :: rest =>
      match rest with
      | [] => none
      | c :: _ =>
          if c.isDigit then (parseDigitsAux rest 0).map (fun n => -(n : Int)) else none
  | c :: rest =>
      if c.isDigit then (parseDigitsAux (c :: rest) 0).map (fun n => (n : Int)) else none

/-- Model of Python's `int(value)` for the values of `PyVal`; `none` models a
`TypeError`/`ValueError` being raised.  `int(float)` truncates toward zero,
which is exactly `Int.tdiv` on the rational's numerator and denominator. -/
def pyToIntOpt : PyVal → Option Int
  | PyVal.vNone => none
  | PyVal.vInt n => some n
  | PyVal.vFloat q => some (Int.tdiv q.num (q.den : Int))
  | PyVal.vStr s => strToIntOpt s
  | PyVal.vDate _ _ _ => none
  | PyVal.vDatetime _ _ _ => none

example : pyToIntOpt (PyVal.vStr "1") = some 1 := by decide
example : pyToIntOpt (PyVal.vStr "02") = some 2 := by decide
example : pyToIntOpt (PyVal.vFloat 3) = some 3 := by decide
example : pyToIntOpt (PyVal.vStr " -42 ") = some (-42) := by decide
example : pyToIntOpt (PyVal.vStr "3.0") = none := by decide
example : pyToIntOpt PyVal.vNone = none := by decide

/-! ## `src/analytics.py` -/

/-- `MAIN_RANGE = list(range(1, 51))`. -/
def MAIN_RANGE : List Int := (List.range 50).map (fun i : Nat => (i : Int) + 1)

/-- `STAR_RANGE = list(range(1, 13))`. -/
def STAR_RANGE : List Int := (List.range 12).map (fun i : Nat => (i : Int) + 1)

/-- A draw dict as consumed by the analytics layer: only the `"numbers"` and
`"stars"` entries are read (via `draw.get(key, [])`, so a missing key behaves
exactly like an empty list). -/
structure DrawDict where
  numbers : List PyVal := []
  stars : List PyVal := []
deriving DecidableEq

/-- `flatten_draw_values`: flatten all draws' numbers (resp. stars) in order,
int-coercing each entry and silently dropping failures. -/
def flatten_draw_values (draws : List DrawDict) : List Int × List Int :=
  (draws.flatMap (fun d => d.numbers.filterMap pyToIntOpt),
   draws.flatMap (fun d => d.stars.filterMap pyToIntOpt))

/-- One counting step of `collections.Counter`: bump an existing key in place
or append a new key with count 1 (Counter preserves first-insertion order). -/
def counterAdd (c : List (PyVal × Int)) (k : PyVal) : List (PyVal × Int) :=
  if (c.map Prod.fst).contains k then
    c.map (fun p => if p.1 = k then (p.1, p.2 + 1) else p)
  else
    c ++ [(k, 1)]

/-- `collections.Counter(values)` over an (already int-coerced) value list,
with keys injected back into `PyVal` (a `Counter` built from an int list has
int keys). -/
def counterOf (values : List Int) : List (PyVal × Int) :=
  values.foldl (fun c v => counterAdd c (PyVal.vInt v)) []

/-- `frequency_counter(draws)`. -/
def frequency_counter (draws : List DrawDict) :
    List (PyVal × Int) × List (PyVal × Int) :=
  (counterOf (flatten_draw_values draws).1, counterOf (flatten_draw_values draws).2)

/-- `coerce_in_range` from `overdue_gaps`: `None` and non-coercible values
yield `None`, as do values outside `[lo, hi]`. -/
def coerce_in_range (v : PyVal) (lo hi : Int) : Option Int :=
  match pyToIntOpt v with
  | none => none
  | some n => if lo ≤ n ∧ n ≤ hi then some n else none

/-- Pointwise update of a gap table (a Python dict whose key set is fixed to
the full range at construction, so the table is modelled as a function). -/
def updateFn (g : Int → Int) (k v : Int) : Int → Int :=
  fun x => if x = k then v else g x

/-- Inner loop of `overdue_gaps` over one draw's value list at draw index
`idx`: record `idx` for each in-range value not yet seen. -/
def rowUpdate (lo hi default idx : Int) (g : Int → Int) : List PyVal → (Int → Int)
  | [] => g
  | v :: rest =>
      match coerce_in_range v lo hi with
      | none => rowUpdate lo hi default idx g rest
      | some n =>
          if g n = default then rowUpdate lo hi default idx (updateFn g n idx) rest
          else rowUpdate lo hi default idx g rest

/-- Outer loop of `overdue_gaps` over the (newest-first) rows of values,
carrying the enumerate index. -/
def gapAux (lo hi default : Int) : List (List PyVal) → Int → (Int → Int) → (Int → Int)
  | [], _, g => g
  | row :: rest, idx, g => gapAux lo hi default rest (idx + 1) (rowUpdate lo hi default idx g row)

/-- Gap table for one domain: start every key at `len(draws) + 1` and scan the
rows from index 0.  (The source builds both tables in a single pass over the
draws; the two dicts are disjoint state, so one pass per table is
equivalent.) -/
def gapTable (lo hi : Int) (rows : List (List PyVal)) : Int → Int :=
  gapAux lo hi ((rows.length : Int) + 1) rows 0 (fun _ => (rows.length : Int) + 1)

/-- `overdue_gaps(draws)`: the pair of gap tables (main, star), as functions
on the fixed key domains `[1,50]` and `[1,12]`. -/
def overdue_gaps (draws : List DrawDict) : (Int → Int) × (Int → Int) :=
  (gapTable 1 50 (draws.map DrawDict.numbers),
   gapTable 1 12 (draws.map DrawDict.stars))

/-- `main_gap.items()`: the main gap dict's key set is fixed to `MAIN_RANGE`
in insertion order, so its item list is the range paired with the table. -/
def mainGapItems (draws : List DrawDict) : List (Int × Int) :=
  MAIN_RANGE.map (fun n => (n, (overdue_gaps draws).1 n))

/-- `star_gap.items()`, analogously over `STAR_RANGE`. -/
def starGapItems (draws : List DrawDict) : List (Int × Int) :=
  STAR_RANGE.map (fun n => (n, (overdue_gaps draws).2 n))

example :
    (overdue_gaps [⟨[PyVal.vInt 1, PyVal.vInt 2, PyVal.vInt 3, PyVal.vInt 4, PyVal.vInt 5],
                    [PyVal.vInt 1, PyVal.vInt 2]⟩]).1 3 = 0 := by decide
example :
    (overdue_gaps [⟨[PyVal.vInt 1, PyVal.vInt 2, PyVal.vInt 3, PyVal.vInt 4, PyVal.vInt 5],
                    [PyVal.vInt 1, PyVal.vInt 2]⟩]).1 6 = 2 := by decide

/-! ## `src/strategies.py` -/

/-- The pseudo-random source: a stream of natural numbers, one consumed per
primitive `random.*` call. -/
def Rs : Type := List Nat

/-- Draw one raw value from the stream (default 0 on exhaustion). -/
def randNat (rs : Rs) : Nat × Rs := (List.headD rs 0, List.tail rs)

/-- `random.randint(lo, hi)` (inclusive bounds, `lo ≤ hi`): uniform choice
modelled by reducing the stream value modulo the width. -/
def randint (lo hi : Int) (rs : Rs) : Int × Rs :=
  match randNat rs with
  | (r, rs1) => (lo + (r : Int) % (hi - lo + 1), rs1)

/-- Python's `max` on a nonempty list (junk value 0 on `[]`, never used). -/
def maxList : List Int → Int
  | [] => 0
  | [x] => x
  | x :: y :: rest => max x (maxList (y :: rest))

/-- Selection by cumulative weight, the semantics of
`random.choices(choices, weights=weights, k=1)[0]` once the uniform draw is
fixed: pick the entry whose cumulative-weight interval contains `r`. -/
def choicesPick : List (Int × Int) → Int → Int
  | [], _ => 0
  | (c, w) :: rest, r => if r < w then c else choicesPick rest (r - w)

/-- One Python dict assignment `d[k] = v` on an association list: replace in
place if the key exists (keeping its original position), else append. -/
def dictInsert (l : List (Int × Int)) (k v : Int) : List (Int × Int) :=
  if (l.map Prod.fst).contains k then
    l.map (fun p => if p.1 = k then (k, v) else p)
  else
    l ++ [(k, v)]

/-- The pool built at the top of `_weighted_unique_pick`: iterate the counter
items, coerce the key with `int(...)` (skipping failures -- counts are already
ints, so `int(weight)` is the identity), and store `max(1, weight)`. -/
def pool_of (counter : List (PyVal × Int)) : List (Int × Int) :=
  counter.foldl
    (fun acc p =>
      match pyToIntOpt p.1 with
      | none => acc
      | some k => dictInsert acc k (max 1 p.2)) []

/-- The weights list of one `_weighted_unique_pick` round, paired with the
choices: the raw pool weights, or -- under `invert` -- each weight replaced
by `max_weight - weight + 1` against the current pool's maximum.  (The source
zips `choices = list(pool.keys())` with the recomputed `weights`; since both
come from the same pool, this is the pool with its weights mapped.) -/
def wupWeights (invert : Bool) (pool : List (Int × Int)) : List (Int × Int) :=
  if invert then pool.map (fun p => (p.1, maxList (pool.map Prod.snd) - p.2 + 1))
  else pool

/-- The sampling loop of `_weighted_unique_pick`, running
`min(k, len(pool))` times (the fuel, fixed before the loop starts): draw one
key by recomputed weight, remove it from the pool, repeat.  `random.choices`
raising `ValueError` on a nonpositive weight total is modelled by the `none`
result. -/
def wupLoop (invert : Bool) : Nat → List (Int × Int) → Rs → Option (List Int) × Rs
  | 0, _, rs => (some [], rs)
  | fuel + 1, pool, rs =>
      let wpool := wupWeights invert pool
      let total := (wpool.map Prod.snd).sum
      if total ≤ 0 then (none, rs)
      else
        match randNat rs with
        | (r, rs1) =>
            let sel := choicesPick wpool ((r : Int) % total)
            match wupLoop invert fuel (pool.filter (fun p => decide (p.1 ≠ sel))) rs1 with
            | (some rest, rs2) => (some (sel :: rest), rs2)
            | (none, rs2) => (none, rs2)

/-- Python's stable `sorted` on an int list (ascending). -/
def sortAsc (l : List Int) : List Int := l.insertionSort (fun a b => a ≤ b)

/-- `_weighted_unique_pick(counter, k, invert)`: build the pool, run the loop,
sort the picks ascending. -/
def weighted_unique_pick (counter : List (PyVal × Int)) (k : Nat) (invert : Bool)
    (rs : Rs) : Option (List Int) × Rs :=
  match wupLoop invert (min k (pool_of counter).length) (pool_of counter) rs with
  | (some picked, rs2) => (some (sortAsc picked), rs2)
  | (none, rs2) => (none, rs2)

/-- `_balanced_main_pick()`: one uniform pick per decade, sorted. -/
def balanced_main_pick (rs : Rs) : List Int × Rs :=
  match randint 1 10 rs with
  | (p1, rs1) =>
    match randint 11 20 rs1 with
    | (p2, rs2) =>
      match randint 21 30 rs2 with
      | (p3, rs3) =>
        match randint 31 40 rs3 with
        | (p4, rs4) =>
          match randint 41 50 rs4 with
          | (p5, rs5) => (sortAsc [p1, p2, p3, p4, p5], rs5)

/-- `_balanced_star_pick()`: one star from `[1,6]`, one from `[7,12]`. -/
def balanced_star_pick (rs : Rs) : List Int × Rs :=
  match randint 1 6 rs with
  | (s1, rs1) =>
    match randint 7 12 rs1 with
    | (s2, rs2) => (sortAsc [s1, s2], rs2)

/-- `_safe_int_list(values)`: int-coerce, dropping failures. -/
def safe_int_list (values : List PyVal) : List Int := values.filterMap pyToIntOpt

/-- Python's stable `sorted(·, key=lambda item: item[1], reverse=True)` on
key/value pairs: stable descending by the second component. -/
def sortBySndDesc {α : Type} (l : List (α × Int)) : List (α × Int) :=
  l.insertionSort (fun a b => b.2 ≤ a.2)

/-- `Counter.most_common(n)`: stable descending sort by count, first `n`
items (CPython's `heapq.nlargest` is documented as equivalent to
`sorted(..., reverse=True)[:n]`). -/
def mostCommon (counter : List (PyVal × Int)) (n : Nat) : List (PyVal × Int) :=
  (sortBySndDesc counter).take n

/-- The selection loop of `random.sample(l, k)` once uniform draws are fixed:
pick an index into the remaining list, remove it, repeat. -/
def sampleLoop : Nat → List Int → Rs → List Int × Rs
  | 0, _, rs => ([], rs)
  | n + 1, l, rs =>
      if l.isEmpty then ([], rs)
      else
        match randNat rs with
        | (r, rs1) =>
            match sampleLoop n (l.eraseIdx (r % l.length)) rs1 with
            | (rest, rs2) => (l.getD (r % l.length) 0 :: rest, rs2)

/-- `random.sample(l, k)`: raises `ValueError` (modelled by `none`) when
`k > len(l)`, else returns `k` distinct elements. -/
def sampleK (l : List Int) (k : Nat) (rs : Rs) : Option (List Int) × Rs :=
  if l.length < k then (none, rs)
  else
    match sampleLoop k l rs with
    | (res, rs2) => (some res, rs2)

/-- The `else` branch of `build_line` -- "AI Mode (Blend)": a candidate pool
from the top-6 hot / top-6 overdue main numbers plus the whole domain, then a
uniform 5-sample (mirrored for stars with 3+3 over the top 6 and a
2-sample). -/
def ai_blend_pick (main_counter star_counter : List (PyVal × Int))
    (draws : List DrawDict) (rs : Rs) : Option (List Int × List Int) × Rs :=
  let hot_main := safe_int_list ((mostCommon main_counter 12).map Prod.fst)
  let overdue_main := ((sortBySndDesc (mainGapItems draws)).take 12).map Prod.fst
  let candidate_main := sortAsc ((hot_main.take 6 ++ overdue_main.take 6 ++ MAIN_RANGE).dedup)
  match sampleK candidate_main 5 rs with
  | (none, rs1) => (none, rs1)
  | (some main_sample, rs1) =>
      let hot_stars := safe_int_list ((mostCommon star_counter 6).map Prod.fst)
      let overdue_stars := ((sortBySndDesc (starGapItems draws)).take 6).map Prod.fst
      let candidate_stars := sortAsc ((hot_stars.take 3 ++ overdue_stars.take 3 ++ STAR_RANGE).dedup)
      match sampleK candidate_stars 2 rs1 with
      | (none, rs2) => (none, rs2)
      | (some star_sample, rs2) => (some (sortAsc main_sample, sortAsc star_sample), rs2)

/-- `build_line(strategy, main_counter, star_counter, draws)`.  The result is
`none` exactly when the Python code would raise. -/
def build_line (strategy : String) (main_counter star_counter : List (PyVal × Int))
    (draws : List DrawDict) (rs : Rs) : Option (List Int × List Int) × Rs :=
  if strategy = "Hot Numbers" then
    match weighted_unique_pick main_counter 5 false rs with
    | (none, rs1) => (none, rs1)
    | (some main_nums, rs1) =>
        match weighted_unique_pick star_counter 2 false rs1 with
        | (none, rs2) => (none, rs2)
        | (some stars, rs2) => (some (main_nums, stars), rs2)
  else if strategy = "Cold Numbers" then
    match weighted_unique_pick main_counter 5 true rs with
    | (none, rs1) => (none, rs1)
    | (some main_nums, rs1) =>
        match weighted_unique_pick star_counter 2 true rs1 with
        | (none, rs2) => (none, rs2)
        | (some stars, rs2) => (some (main_nums, stars), rs2)
  else if strategy = "Overdue (Longest gap)" then
    (some (sortAsc (((sortBySndDesc (mainGapItems draws)).take 5).map Prod.fst),
           sortAsc (((sortBySndDesc (starGapItems draws)).take 2).map Prod.fst)), rs)
  else if strategy = "Balanced Picks" then
    match balanced_main_pick rs with
    | (main_nums, rs1) =>
        match balanced_star_pick rs1 with
        | (stars, rs2) => (some (main_nums, stars), rs2)
  else
    -- AI Mode (Blend), the `else` branch of the source
    ai_blend_pick main_counter star_counter draws rs

/-- Python's `min` on a nonempty list (junk value 0 on `[]`, never used: the
caller has already checked the list has at least 2 elements). -/
def minList : List Int → Int
  | [] => 0
  | [x] => x
  | x :: y :: rest => min x (minList (y :: rest))

/-- `explain_line(main_nums, stars, main_counter, star_counter, main_gap,
strategy)`.  The `main_gap` argument is the main gap dict's item list (its
keys are ints, so the `_safe_int_list` pass over them in the source is the
identity).  Python sets are used only for membership tests, so they are
modelled by membership in the underlying lists. -/
def explain_line (main_nums stars : List PyVal)
    (main_counter star_counter : List (PyVal × Int))
    (main_gap : List (Int × Int)) (strategy : String) : Int × List String :=
  let safe_main_nums := sortAsc (safe_int_list main_nums)
  let safe_stars := sortAsc (safe_int_list stars)
  if safe_main_nums.length < 2 then
    (0, ["Not enough valid numbers to explain this line."])
  else
    let hot_main := safe_int_list ((mostCommon main_counter 10).map Prod.fst)
    let cold_main := safe_int_list
      (((main_counter.insertionSort (fun a b => a.2 ≤ b.2)).take 10).map Prod.fst)
    let overdue_main := ((sortBySndDesc main_gap).take 10).map Prod.fst
    let hot_hits : Int := ((safe_main_nums.filter (fun n => hot_main.contains n)).length : Int)
    let cold_hits : Int := ((safe_main_nums.filter (fun n => cold_main.contains n)).length : Int)
    let overdue_hits : Int :=
      ((safe_main_nums.filter (fun n => overdue_main.contains n)).length : Int)
    let low_count : Int := ((safe_main_nums.filter (fun n => decide (n ≤ 25))).length : Int)
    let spread := maxList safe_main_nums - minList safe_main_nums
    let sequential_pairs : Int :=
      (((safe_main_nums.zip safe_main_nums.tail).filter (fun p => decide (p.2 - p.1 = 1))).length : Int)
    let score0 : Int := 55
    let score1 := if 2 ≤ low_count ∧ low_count ≤ 3 then score0 + 12 else score0
    let score2 := if 25 ≤ spread then score1 + 10 else score1
    let score3 := if sequential_pairs = 0 then score2 + 8 else score2
    let score4 := if 2 ≤ hot_hits then score3 + 8 else score3
    let score5 := if 1 ≤ cold_hits then score4 + 4 else score4
    let score6 := if 1 ≤ overdue_hits then score5 + 6 else score5
    let score := min 100 (max 0 score6)
    let explanations :=
      ["Includes " ++ toString hot_hits ++ " hot and " ++ toString overdue_hits ++
         " overdue main numbers.",
       "Range spread is " ++ toString spread ++ " with low/high split " ++
         toString low_count ++ "/" ++ toString (5 - low_count) ++ "."]
    let explanations := explanations ++
      [if sequential_pairs = 0 then
         "Avoids sequential clusters, a common human pick pattern."
       else
         "Contains " ++ toString sequential_pairs ++
           " sequential pair(s), keeping some natural adjacency."]
    let explanations :=
      if strategy = "Balanced Picks" then
        "Built to distribute picks across number decades." :: explanations
      else if strategy = "Overdue (Longest gap)" then
        "Prioritizes numbers with the longest gaps since last appearance." :: explanations
      else if strategy = "Cold Numbers" then
        "Leans into less frequent historical outcomes." :: explanations
      else explanations
    let explanations :=
      if safe_stars.isEmpty then explanations
      else
        let hot_stars := safe_int_list ((mostCommon star_counter 4).map Prod.fst)
        let star_hot_hits : Int :=
          ((safe_stars.filter (fun s => hot_stars.contains s)).length : Int)
        explanations ++
          ["Lucky stars include " ++ toString star_hot_hits ++
             " from the recent high-frequency group."]
    (score, explanations.take 4)

/-! ## `src/core/draws.py` -/

/-- A calendar date as produced by the date parsers. -/
structure Sdate where
  year : Nat
  month : Nat
  day : Nat
deriving DecidableEq

/-- Gregorian leap year. -/
def isLeap (y : Nat) : Bool := y % 4 = 0 ∧ (y % 100 ≠ 0 ∨ y % 400 = 0)

/-- Days in a month. -/
def daysInMonth (y m : Nat) : Nat :=
  if m = 2 then (if isLeap y then 29 else 28)
  else if m = 4 ∨ m = 6 ∨ m = 9 ∨ m = 11 then 30
  else 31

/-- Validity check of `datetime.date(y, m, d)` (raises `ValueError`
otherwise). -/
def validDate (y m d : Nat) : Bool :=
  1 ≤ y ∧ y ≤ 9999 ∧ 1 ≤ m ∧ m ≤ 12 ∧ 1 ≤ d ∧ d ≤ daysInMonth y m

/-- Two decimal digit characters as a number. -/
def digits2 (a b : Char) : Nat := digitVal a * 10 + digitVal b

/-- Value of an all-digit character list. -/
def digitsToNat (cs : List Char) : Nat := cs.foldl (fun a c => a * 10 + digitVal c) 0

/-- Offset part of an ISO time (`±HH:MM` or empty). -/
def validOffset : List Char → Bool
  | [] => true
  | sign :: h1 :: h2 :: ':' :: m1 :: m2 :: [] =>
      (sign = '+' ∨ sign = '-') ∧ h1.isDigit ∧ h2.isDigit ∧ m1.isDigit ∧ m2.isDigit ∧
        digits2 h1 h2 ≤ 23 ∧ digits2 m1 m2 ≤ 59
  | _ => false

/-- Fractional-seconds part of an ISO time (`.ffffff` with 1-6 digits, then
an optional offset). -/
def validFracPart (cs : List Char) : Bool :=
  match cs with
  | '.' :: rest =>
      let ds := rest.takeWhile Char.isDigit
      1 ≤ ds.length ∧ ds.length ≤ 6 ∧ validOffset (rest.drop ds.length)
  | rest => validOffset rest

/-- Seconds part of an ISO time (`:SS` then optional fraction/offset). -/
def validSecPart : List Char → Bool
  | ':' :: s1 :: s2 :: rest =>
      s1.isDigit ∧ s2.isDigit ∧ digits2 s1 s2 ≤ 59 ∧ validFracPart rest
  | rest => validOffset rest

/-- An ISO time-of-day `HH:MM[:SS[.ffffff]][±HH:MM]`. -/
def validTime : List Char → Bool
  | h1 :: h2 :: ':' :: m1 :: m2 :: rest =>
      h1.isDigit ∧ h2.isDigit ∧ m1.isDigit ∧ m2.isDigit ∧
        digits2 h1 h2 ≤ 23 ∧ digits2 m1 m2 ≤ 59 ∧ validSecPart rest
  | _ => false

/-- What may follow the date in an ISO string: nothing, or a `T`/space
separator and a time-of-day. -/
def validTimeSuffix : List Char → Bool
  | [] => true
  | 'T' :: t => validTime t
  | ' ' :: t => validTime t
  | _ => false

/-- Model of `datetime.fromisoformat(text).date()` on the common
`YYYY-MM-DD[*HH:MM[:SS[.ffffff]][±HH:MM]]` forms; `none` models
`ValueError`. -/
def fromisoformatCore (cs : List Char) : Option Sdate :=
  match cs with
  | y1 :: y2 :: y3 :: y4 :: '-' :: m1 :: m2 :: '-' :: d1 :: d2 :: rest =>
      if y1.isDigit ∧ y2.isDigit ∧ y3.isDigit ∧ y4.isDigit ∧
          m1.isDigit ∧ m2.isDigit ∧ d1.isDigit ∧ d2.isDigit then
        let y := digitVal y1 * 1000 + digitVal y2 * 100 + digitVal y3 * 10 + digitVal y4
        let m := digits2 m1 m2
        let d := digits2 d1 d2
        if validDate y m d ∧ validTimeSuffix rest then some ⟨y, m, d⟩ else none
      else none
  | _ => none

/-- `text.replace("Z", "+00:00")` on a character list. -/
def replaceZ (cs : List Char) : List Char :=
  cs.flatMap (fun c => if c = 'Z' then ['+', '0', '0', ':', '0', '0'] else [c])

/-- Split a character list on a separator character (like `str.split(sep)`,
keeping empty groups). -/
def splitOnChar (sep : Char) : List Char → List (List Char)
  | [] => [[]]
  | c :: rest =>
      if c = sep then [] :: splitOnChar sep rest
      else
        match splitOnChar sep rest with
        | [] => [[c]]
        | g :: gs => (c :: g) :: gs

/-- A 1- or 2-digit field of value in `[lo, hi]` (the CPython `_strptime`
regexes for `%m`/`%d` never match `"0"`/`"00"` or 3 digits). -/
def validField12 (cs : List Char) (lo hi : Nat) : Bool :=
  (1 ≤ cs.length ∧ cs.length ≤ 2) ∧ cs.all Char.isDigit ∧
    lo ≤ digitsToNat cs ∧ digitsToNat cs ≤ hi

/-- Model of `datetime.strptime(text, "%Y-%m-%d").date()`: a 4-digit year,
1-2 digit month in `[1,12]`, 1-2 digit day in `[1,31]`, entire string
consumed; the subsequent `datetime` construction re-validates the day against
the month (`ValueError` is modelled by `none`). -/
def strptimeYMD (cs : List Char) : Option Sdate :=
  match splitOnChar '-' cs with
  | [ys, ms, ds] =>
      if (ys.length = 4 ∧ ys.all Char.isDigit) ∧ validField12 ms 1 12 ∧
          validField12 ds 1 31 ∧ validDate (digitsToNat ys) (digitsToNat ms) (digitsToNat ds) then
        some ⟨digitsToNat ys, digitsToNat ms, digitsToNat ds⟩
      else none
  | _ => none

/-- Model of `datetime.strptime(text, "%d/%m/%Y").date()`. -/
def strptimeDMY (cs : List Char) : Option Sdate :=
  match splitOnChar '/' cs with
  | [ds, ms, ys] =>
      if (ys.length = 4 ∧ ys.all Char.isDigit) ∧ validField12 ms 1 12 ∧
          validField12 ds 1 31 ∧ validDate (digitsToNat ys) (digitsToNat ms) (digitsToNat ds) then
        some ⟨digitsToNat ys, digitsToNat ms, digitsToNat ds⟩
      else none
  | _ => none

/-- `str(value)` for the values that can reach the text branch of
`parse_date_like` (dates and datetimes are matched beforehand). -/
def strOfPy : PyVal → String
  | PyVal.vStr s => s
  | PyVal.vInt n => toString n
  | PyVal.vFloat q => toString q
  | PyVal.vNone => "None"
  | PyVal.vDate _ _ _ => ""
  | PyVal.vDatetime _ _ _ => ""

/-- `parse_date_like(value)`: `None`/`""` short-circuit, `datetime`/`date`
instances pass through, otherwise the stripped text is tried against
ISO-8601 (after the `Z` substitution), then `%Y-%m-%d`, then `%d/%m/%Y`. -/
def parse_date_like (value : PyVal) : Option Sdate :=
  if value = PyVal.vNone ∨ value = PyVal.vStr "" then none
  else
    match value with
    | PyVal.vDatetime y m d => some ⟨y, m, d⟩
    | PyVal.vDate y m d => some ⟨y, m, d⟩
    | v =>
        let text := pyStrip (strOfPy v).toList
        if text.isEmpty then none
        else
          match fromisoformatCore (replaceZ text) with
          | some dd => some dd
          | none =>
              match strptimeYMD text with
              | some dd => some dd
              | none => strptimeDMY text

/-- A raw draw payload as consumed by `prepare_draws`: the three date keys
(`draw.get(key)` yields `None` when absent) and the raw number lists. -/
structure RawDraw where
  date : PyVal := PyVal.vNone
  drawDate : PyVal := PyVal.vNone
  draw_date : PyVal := PyVal.vNone
  numbers : List PyVal := []
  stars : List PyVal := []
deriving DecidableEq

/-- Order-embedding of a date into `Int`, standing in for the UTC-midnight
POSIX timestamp of `parse_draw_timestamp` (only the order of the key matters
to `sorted`, and `y*10000 + m*100 + d` is strictly monotone in the date). -/
def encodeDate (d : Sdate) : Int :=
  (d.year : Int) * 10000 + (d.month : Int) * 100 + (d.day : Int)

/-- `parse_draw_timestamp(draw)`: first parseable of the three date keys, or
the sentinel `float("-inf")` -- modelled by `-1`, which is smaller than every
encoded date (encodings are nonnegative). -/
def parse_draw_timestamp (draw : RawDraw) : Int :=
  match parse_date_like draw.date with
  | some d => encodeDate d
  | none =>
      match parse_date_like draw.drawDate with
      | some d => encodeDate d
      | none =>
          match parse_date_like draw.draw_date with
          | some d => encodeDate d
          | none => -1

/-- `normalize_int_list(values)`. -/
def normalize_int_list (values : List PyVal) : List Int := values.filterMap pyToIntOpt

/-- `normalize_draw_dict(draw)`: same record with the number lists coerced to
clean int lists. -/
def normalize_draw_dict (draw : RawDraw) : RawDraw :=
  { draw with
    numbers := (normalize_int_list draw.numbers).map PyVal.vInt
    stars := (normalize_int_list draw.stars).map PyVal.vInt }

/-- `prepare_draws(draws, history_n)`: normalize, stable-sort newest-first by
the parsed timestamp, truncate to the window. -/
def prepare_draws (draws : List RawDraw) (history_n : Nat) : List RawDraw :=
  (((draws.map normalize_draw_dict).insertionSort
      (fun a b => parse_draw_timestamp b ≤ parse_draw_timestamp a)).take history_n)

example : parse_date_like (PyVal.vStr "2026-03-03") = some ⟨2026, 3, 3⟩ := by decide
example : parse_date_like (PyVal.vStr "2026-03-03T20:15:00Z") = some ⟨2026, 3, 3⟩ := by decide
example : parse_date_like (PyVal.vStr "03/04/2026") = some ⟨2026, 4, 3⟩ := by decide
example : parse_date_like (PyVal.vStr "2026-3-3") = some ⟨2026, 3, 3⟩ := by decide
example : parse_date_like (PyVal.vStr "garbage") = none := by decide
example : parse_date_like (PyVal.vStr "2026-02-30") = none := by decide

/-! ## Basic facts about the embedded sorting and ranges -/

instance sortDescSndIsTotal {α : Type} :
    IsTotal (α × Int) (fun a b => b.2 ≤ a.2) :=
  ⟨fun a b => le_total b.2 a.2⟩

instance sortDescSndIsTrans {α : Type} :
    IsTrans (α × Int) (fun a b => b.2 ≤ a.2) :=
  ⟨fun _ _ _ h1 h2 => le_trans h2 h1⟩

instance sortAscSndIsTotal {α : Type} :
    IsTotal (α × Int) (fun a b => a.2 ≤ b.2) :=
  ⟨fun a b => le_total a.2 b.2⟩

instance sortAscSndIsTrans {α : Type} :
    IsTrans (α × Int) (fun a b => a.2 ≤ b.2) :=
  ⟨fun _ _ _ h1 h2 => le_trans h1 h2⟩

instance tsDescIsTotal :
    IsTotal RawDraw (fun a b => parse_draw_timestamp b ≤ parse_draw_timestamp a) :=
  ⟨fun a b => le_total (parse_draw_timestamp b) (parse_draw_timestamp a)⟩

instance tsDescIsTrans :
    IsTrans RawDraw (fun a b => parse_draw_timestamp b ≤ parse_draw_timestamp a) :=
  ⟨fun _ _ _ h1 h2 => le_trans h2 h1⟩

theorem sortAsc_perm (l : List Int) : List.Perm (sortAsc l) l :=
  List.perm_insertionSort _ l

theorem sortAsc_sorted (l : List Int) : (sortAsc l).Sorted (fun a b : Int => a ≤ b) :=
  List.sorted_insertionSort _ l

theorem sortAsc_mem {l : List Int} {x : Int} : x ∈ sortAsc l ↔ x ∈ l :=
  (sortAsc_perm l).mem_iff

theorem sortAsc_nodup {l : List Int} (h : l.Nodup) : (sortAsc l).Nodup :=
  (sortAsc_perm l).nodup_iff.mpr h

theorem sortAsc_length (l : List Int) : (sortAsc l).length = l.length :=
  (sortAsc_perm l).length_eq

theorem sortBySndDesc_perm {α : Type} (l : List (α × Int)) : List.Perm (sortBySndDesc l) l :=
  List.perm_insertionSort _ l

theorem MAIN_RANGE_mem {x : Int} : x ∈ MAIN_RANGE ↔ 1 ≤ x ∧ x ≤ 50 := by
  constructor
  · intro hx
    simp only [MAIN_RANGE, List.mem_map, List.mem_range] at hx
    obtain ⟨i, hi, rfl⟩ := hx
    omega
  · intro hx
    simp only [MAIN_RANGE, List.mem_map, List.mem_range]
    refine ⟨(x - 1).toNat, by omega, by omega⟩

theorem STAR_RANGE_mem {x : Int} : x ∈ STAR_RANGE ↔ 1 ≤ x ∧ x ≤ 12 := by
  constructor
  · intro hx
    simp only [STAR_RANGE, List.mem_map, List.mem_range] at hx
    obtain ⟨i, hi, rfl⟩ := hx
    omega
  · intro hx
    simp only [STAR_RANGE, List.mem_map, List.mem_range]
    refine ⟨(x - 1).toNat, by omega, by omega⟩

theorem MAIN_RANGE_nodup : MAIN_RANGE.Nodup := by
  refine List.Nodup.map ?_ (List.nodup_range 50)
  intro a b hab
  simpa using hab

theorem STAR_RANGE_nodup : STAR_RANGE.Nodup := by
  refine List.Nodup.map ?_ (List.nodup_range 12)
  intro a b hab
  simpa using hab

theorem MAIN_RANGE_length : MAIN_RANGE.length = 50 := by decide

theorem STAR_RANGE_length : STAR_RANGE.length = 12 := by decide

/-! ## Characterization of the gap tables -/

/-- `n` appears (as an in-range int-coercion of some entry) in a row. -/
def appearsRow (lo hi n : Int) (row : List PyVal) : Bool :=
  row.any (fun v => decide (coerce_in_range v lo hi = some n))

theorem appearsRow_iff {lo hi n : Int} {row : List PyVal} :
    appearsRow lo hi n row = true ↔ ∃ v ∈ row, coerce_in_range v lo hi = some n := by
  simp [appearsRow]

/-- Index of the first row (scanning from index 0) in which `n` appears. -/
def firstSeenIdx (lo hi n : Int) : List (List PyVal) → Option Nat
  | [] => none
  | row :: rest =>
      if appearsRow lo hi n row then some 0
      else (firstSeenIdx lo hi n rest).map (fun j => j + 1)

theorem rowUpdate_char (lo hi default idx : Int) (hidx : idx ≠ default) :
    ∀ (row : List PyVal) (g : Int → Int) (n : Int),
      rowUpdate lo hi default idx g row n =
        if g n = default ∧ appearsRow lo hi n row then idx else g n := by
  intro row
  induction row with
  | nil =>
      intro g n
      simp [rowUpdate, appearsRow]
  | cons v rest ih =>
      intro g n
      have hcons : (appearsRow lo hi n (v :: rest) = true) ↔
          (coerce_in_range v lo hi = some n ∨ appearsRow lo hi n rest = true) := by
        simp [appearsRow]
      cases hc : coerce_in_range v lo hi with
      | none =>
          have hA : appearsRow lo hi n (v :: rest) = appearsRow lo hi n rest := by
            simp [appearsRow, hc]
          simp only [rowUpdate, hc]
          rw [ih g n, hA]
      | some m =>
          by_cases hm : m = n
          · subst hm
            have hA : appearsRow lo hi m (v :: rest) = true := by
              rw [hcons]
              exact Or.inl hc
            by_cases hg : g m = default
            · simp only [rowUpdate, hc, hg, if_true]
              rw [ih (updateFn g m idx) m]
              have hupd : updateFn g m idx m = idx := by simp [updateFn]
              rw [hupd]
              simp [hidx, hg, hA]
            · simp only [rowUpdate, hc, hg, if_false]
              rw [ih g m, hA]
              simp [hg]
          · have hA : appearsRow lo hi n (v :: rest) = appearsRow lo hi n rest := by
              simp only [appearsRow, List.any_cons]
              have : decide (coerce_in_range v lo hi = some n) = false := by
                simp [hc, hm]
              rw [this]
              simp
            by_cases hg : g m = default
            · simp only [rowUpdate, hc, hg, if_true]
              rw [ih (updateFn g m idx) n]
              have hupd : updateFn g m idx n = g n := by
                simp only [updateFn]
                rw [if_neg]
                intro h
                exact hm h.symm
              rw [hupd, hA]
            · simp only [rowUpdate, hc, hg, if_false]
              rw [ih g n, hA]

theorem gapAux_char (lo hi default : Int) :
    ∀ (rows : List (List PyVal)) (idx : Int) (g : Int → Int) (n : Int),
      (∀ j : Nat, j < rows.length → idx + (j : Int) ≠ default) →
      gapAux lo hi default rows idx g n =
        if g n = default then
          (match firstSeenIdx lo hi n rows with
           | some j => idx + (j : Int)
           | none => default)
        else g n := by
  intro rows
  induction rows with
  | nil =>
      intro idx g n _
      simp only [gapAux, firstSeenIdx]
      by_cases hg : g n = default
      · simp [hg]
      · simp [hg]
  | cons row rest ih =>
      intro idx g n hd
      have hidx : idx ≠ default := by
        have := hd 0 (by simp)
        simpa using this
      have hd' : ∀ j : Nat, j < rest.length → (idx + 1) + (j : Int) ≠ default := by
        intro j hj
        have := hd (j + 1) (by simpa using Nat.succ_lt_succ hj)
        push_cast at this ⊢
        omega
      simp only [gapAux]
      rw [ih (idx + 1) (rowUpdate lo hi default idx g row) n hd']
      rw [rowUpdate_char lo hi default idx hidx row g n]
      by_cases hg : g n = default
      · by_cases hA : appearsRow lo hi n row
        · have h1 : (if g n = default ∧ appearsRow lo hi n row = true then idx else g n)
              = idx := if_pos ⟨hg, hA⟩
          rw [h1, if_neg hidx, if_pos hg]
          simp [firstSeenIdx, hA]
        · have h1 : (if g n = default ∧ appearsRow lo hi n row = true then idx else g n)
              = g n := if_neg (fun h => hA h.2)
          rw [h1, if_pos hg, if_pos hg]
          simp only [firstSeenIdx, hA, if_false]
          cases hfs : firstSeenIdx lo hi n rest with
          | none => simp
          | some j =>
              have hmap : (some j).map (fun i => i + 1) = some (j + 1) := rfl
              rw [hmap]
              push_cast
              ring
      · have h1 : (if g n = default ∧ appearsRow lo hi n row = true then idx else g n)
            = g n := if_neg (fun h => hg h.1)
        rw [h1, if_neg hg, if_neg hg]

theorem gapTable_char (lo hi : Int) (rows : List (List PyVal)) (n : Int) :
    gapTable lo hi rows n =
      (match firstSeenIdx lo hi n rows with
       | some j => (j : Int)
       | none => (rows.length : Int) + 1) := by
  have hd : ∀ j : Nat, j < rows.length → (0 : Int) + (j : Int) ≠ (rows.length : Int) + 1 := by
    intro j hj
    have : (j : Int) < (rows.length : Int) := by exact_mod_cast hj
    omega
  rw [gapTable, gapAux_char lo hi ((rows.length : Int) + 1) rows 0 _ n hd]
  simp only [if_true]
  cases firstSeenIdx lo hi n rows with
  | none => simp
  | some j => simp

theorem firstSeenIdx_eq_none {lo hi n : Int} {rows : List (List PyVal)}
    (h : ∀ row ∈ rows, appearsRow lo hi n row = false) :
    firstSeenIdx lo hi n rows = none := by
  induction rows with
  | nil => rfl
  | cons row rest ih =>
      have hrow := h row (by simp)
      simp only [firstSeenIdx, hrow]
      rw [ih (fun r hr => h r (by simp [hr]))]
      simp

/-! ## Facts about `Counter` key sets -/

theorem counterAdd_keys_toFinset (c : List (PyVal × Int)) (k : PyVal) :
    ((counterAdd c k).map Prod.fst).toFinset = insert k (c.map Prod.fst).toFinset := by
  by_cases hk : (c.map Prod.fst).contains k
  · have hmem : k ∈ c.map Prod.fst := by
      simpa using hk
    have hkeys : (counterAdd c k).map Prod.fst = c.map Prod.fst := by
      simp only [counterAdd, hk, if_true, List.map_map]
      refine List.map_congr_left ?_
      intro p _
      by_cases hp : p.1 = k
      · simp [Function.comp, hp]
      · simp [Function.comp, hp]
    rw [hkeys]
    exact (Finset.insert_eq_self.mpr (by simpa using hmem)).symm
  · have hkeys : (counterAdd c k).map Prod.fst = c.map Prod.fst ++ [k] := by
      rw [counterAdd, if_neg hk]
      simp
    rw [hkeys]
    ext x
    simp [or_comm]

theorem counterOf_keys_aux :
    ∀ (values : List Int) (c : List (PyVal × Int)),
      ((values.foldl (fun acc v => counterAdd acc (PyVal.vInt v)) c).map Prod.fst).toFinset
        = (c.map Prod.fst).toFinset ∪ (values.map PyVal.vInt).toFinset := by
  intro values
  induction values with
  | nil => intro c; simp
  | cons v vs ih =>
      intro c
      simp only [List.foldl_cons]
      rw [ih (counterAdd c (PyVal.vInt v)), counterAdd_keys_toFinset]
      simp only [List.map_cons, List.toFinset_cons]
      rw [Finset.union_insert, Finset.insert_union]

theorem counterOf_keys (values : List Int) :
    ((counterOf values).map Prod.fst).toFinset = (values.map PyVal.vInt).toFinset := by
  rw [counterOf, counterOf_keys_aux values []]
  simp

/-! ## Claim C3 -/

/-- C3: for every draws list `D` (newest-first), `overdue_gaps D` assigns
gap 0 to every in-range number appearing in `D[0]`, assigns the sentinel
`len(D) + 1` to every number absent from all of `D`, and otherwise assigns
the index of the first draw (scanning from index 0) in which the number
appears -- for the main table over `[1,50]` and the star table over
`[1,12]` alike. -/
theorem c3_overdue_gap_values (draws : List DrawDict) (n : Int)
    (hn : n ∈ MAIN_RANGE) (s : Int) (hs : s ∈ STAR_RANGE) :
    (∀ d0, draws.head? = some d0 → appearsRow 1 50 n d0.numbers = true →
        (overdue_gaps draws).1 n = 0) ∧
    ((∀ d ∈ draws, appearsRow 1 50 n d.numbers = false) →
        (overdue_gaps draws).1 n = (draws.length : Int) + 1) ∧
    (∀ i : Nat, firstSeenIdx 1 50 n (draws.map DrawDict.numbers) = some i →
        (overdue_gaps draws).1 n = (i : Int)) ∧
    (∀ d0, draws.head? = some d0 → appearsRow 1 12 s d0.stars = true →
        (overdue_gaps draws).2 s = 0) ∧
    ((∀ d ∈ draws, appearsRow 1 12 s d.stars = false) →
        (overdue_gaps draws).2 s = (draws.length : Int) + 1) ∧
    (∀ i : Nat, firstSeenIdx 1 12 s (draws.map DrawDict.stars) = some i →
        (overdue_gaps draws).2 s = (i : Int)) := by
  have hmain : ∀ m : Int, (overdue_gaps draws).1 m =
      (match firstSeenIdx 1 50 m (draws.map DrawDict.numbers) with
       | some j => (j : Int)
       | none => ((draws.map DrawDict.numbers).length : Int) + 1) := by
    intro m
    exact gapTable_char 1 50 (draws.map DrawDict.numbers) m
  have hstar : ∀ m : Int, (overdue_gaps draws).2 m =
      (match firstSeenIdx 1 12 m (draws.map DrawDict.stars) with
       | some j => (j : Int)
       | none => ((draws.map DrawDict.stars).length : Int) + 1) := by
    intro m
    exact gapTable_char 1 12 (draws.map DrawDict.stars) m
  refine ⟨?_, ?_, ?_, ?_, ?_, ?_⟩
  · intro d0 hd0 happ
    cases draws with
    | nil => simp at hd0
    | cons d rest =>
        have : d = d0 := by simpa using hd0
        subst this
        rw [hmain n]
        simp [firstSeenIdx, happ]
  · intro habs
    rw [hmain n, firstSeenIdx_eq_none (by
      intro row hrow
      obtain ⟨d, hd, rfl⟩ := List.mem_map.mp hrow
      exact habs d hd)]
    simp
  · intro i hi
    rw [hmain n, hi]
  · intro d0 hd0 happ
    cases draws with
    | nil => simp at hd0
    | cons d rest =>
        have : d = d0 := by simpa using hd0
        subst this
        rw [hstar s]
        simp [firstSeenIdx, happ]
  · intro habs
    rw [hstar s, firstSeenIdx_eq_none (by
      intro row hrow
      obtain ⟨d, hd, rfl⟩ := List.mem_map.mp hrow
      exact habs d hd)]
    simp
  · intro i hi
    rw [hstar s, hi]

/-- Witness for `c3_overdue_gap_values` at a concrete single-draw history:
the number 3 appears in the newest draw (gap 0 per the theorem), and the
concrete table indeed gives gap 0 for 3 and the sentinel 2 for the unseen
number 6. -/
theorem c3_overdue_gap_values_witness :
    ((3 : Int) ∈ MAIN_RANGE ∧ (1 : Int) ∈ STAR_RANGE) ∧
    (overdue_gaps [⟨[PyVal.vInt 1, PyVal.vInt 2, PyVal.vInt 3, PyVal.vInt 4, PyVal.vInt 5],
        [PyVal.vInt 1, PyVal.vInt 2]⟩]).1 3 = 0 := by
  refine ⟨⟨by decide, by decide⟩, ?_⟩
  exact (c3_overdue_gap_values
      [⟨[PyVal.vInt 1, PyVal.vInt 2, PyVal.vInt 3, PyVal.vInt 4, PyVal.vInt 5],
        [PyVal.vInt 1, PyVal.vInt 2]⟩] 3 (by decide) 1 (by decide)).1
    _ rfl (by decide)

/-! ## Claim C2 -/

/-- C2, counterexample: the claim states that numbers unseen in the window
are *present as keys* with count 0 in the frequency tables.  In the code,
`Counter(numbers)` only contains the values that actually occurred: with a
single draw `{1,2,3,4,5}`, the in-range number 6 is not a key of the main
frequency table at all. -/
theorem c2_counterexample :
    (6 : Int) ∈ MAIN_RANGE ∧
    PyVal.vInt 6 ∉ ((frequency_counter
        [⟨[PyVal.vInt 1, PyVal.vInt 2, PyVal.vInt 3, PyVal.vInt 4, PyVal.vInt 5],
          [PyVal.vInt 1, PyVal.vInt 2]⟩]).1.map Prod.fst) := by
  constructor
  · decide
  · decide

/-- C2 (amended): the gap tables returned by `overdue_gaps` always have the
full number range as key domain ([1,50] main, [1,12] star) with unseen
numbers at the maximal gap value `len(draws) + 1`; the frequency tables
returned by `frequency_counter`, however, have as key set exactly the values
that actually appeared in the window -- unseen numbers are not keys (a
`Counter` lookup of a missing key merely *defaults* to 0). -/
theorem c2_table_domains (draws : List DrawDict) :
    ((mainGapItems draws).map Prod.fst = MAIN_RANGE) ∧
    ((starGapItems draws).map Prod.fst = STAR_RANGE) ∧
    (∀ n : Int, (∀ d ∈ draws, appearsRow 1 50 n d.numbers = false) →
        (overdue_gaps draws).1 n = (draws.length : Int) + 1) ∧
    (∀ s : Int, (∀ d ∈ draws, appearsRow 1 12 s d.stars = false) →
        (overdue_gaps draws).2 s = (draws.length : Int) + 1) ∧
    (((frequency_counter draws).1.map Prod.fst).toFinset
        = ((flatten_draw_values draws).1.map PyVal.vInt).toFinset) ∧
    (((frequency_counter draws).2.map Prod.fst).toFinset
        = ((flatten_draw_values draws).2.map PyVal.vInt).toFinset) := by
  refine ⟨?_, ?_, ?_, ?_, ?_, ?_⟩
  · simp [mainGapItems, List.map_map, Function.comp_def]
  · simp [starGapItems, List.map_map, Function.comp_def]
  · intro n habs
    rw [show (overdue_gaps draws).1 n = gapTable 1 50 (draws.map DrawDict.numbers) n from rfl]
    rw [gapTable_char, firstSeenIdx_eq_none (by
      intro row hrow
      obtain ⟨d, hd, rfl⟩ := List.mem_map.mp hrow
      exact habs d hd)]
    simp
  · intro s habs
    rw [show (overdue_gaps draws).2 s = gapTable 1 12 (draws.map DrawDict.stars) s from rfl]
    rw [gapTable_char, firstSeenIdx_eq_none (by
      intro row hrow
      obtain ⟨d, hd, rfl⟩ := List.mem_map.mp hrow
      exact habs d hd)]
    simp
  · exact counterOf_keys _
  · exact counterOf_keys _

/-- Witness for `c2_table_domains` at the empty history: the main gap item
keys are the full range and the unseen number 7 gets the sentinel
`0 + 1 = 1`. -/
theorem c2_table_domains_witness :
    (mainGapItems []).map Prod.fst = MAIN_RANGE ∧ (overdue_gaps []).1 7 = 1 := by
  refine ⟨(c2_table_domains []).1, ?_⟩
  have h := (c2_table_domains []).2.2.1 7 (by intro d hd; simp at hd)
  simpa using h

/-! ## Claim C8 -/

/-- C8: normalizing a draw record's number list coerces string and float
entries to integers and silently drops unconvertible entries (no error):
`["1", "02", 3.0]` normalizes to `[1, 2, 3]`, and unconvertible entries such
as `None` or a non-numeric string are simply dropped. -/
theorem c8_normalize_roundtrip :
    normalize_int_list [PyVal.vStr "1", PyVal.vStr "02", PyVal.vFloat 3] = [1, 2, 3] ∧
    normalize_int_list [PyVal.vStr "1", PyVal.vNone, PyVal.vStr "x", PyVal.vFloat 3]
      = [1, 3] := by
  constructor
  · decide
  · decide

/-! ## Claim C9 -/

/-- C9: the "Overdue (Longest gap)" strategy is deterministic.  In the
embedding all randomness is explicit, so this is the statement that the
result does not depend on the random stream at all: two calls with identical
counters and draws (and any two random streams) return identical
(main, stars) outputs. -/
theorem c9_overdue_deterministic (main_counter star_counter : List (PyVal × Int))
    (draws : List DrawDict) (rs1 rs2 : Rs) :
    (build_line "Overdue (Longest gap)" main_counter star_counter draws rs1).1 =
    (build_line "Overdue (Longest gap)" main_counter star_counter draws rs2).1 := rfl

/-! ## The weighted sampler: supporting lemmas -/

theorem maxList_ge : ∀ (l : List Int), ∀ w ∈ l, w ≤ maxList l := by
  intro l
  induction l with
  | nil => intro w hw; simp at hw
  | cons x xs ih =>
      cases xs with
      | nil =>
          intro w hw
          simp only [List.mem_singleton] at hw
          simp [maxList, hw]
      | cons y rest =>
          intro w hw
          rcases List.mem_cons.mp hw with h | h
          · subst h
            exact le_max_left _ _
          · exact le_trans (ih w h) (le_max_right _ _)

theorem sum_ge_length : ∀ (l : List Int), (∀ w ∈ l, (1 : Int) ≤ w) →
    (l.length : Int) ≤ l.sum := by
  intro l
  induction l with
  | nil => intro _; simp
  | cons x xs ih =>
      intro h
      have hx := h x (by simp)
      have hxs := ih (fun w hw => h w (by simp [hw]))
      simp only [List.length_cons, List.sum_cons]
      push_cast
      omega

theorem choicesPick_mem : ∀ (l : List (Int × Int)) (r : Int),
    (∀ w ∈ l.map Prod.snd, 0 ≤ w) → 0 ≤ r → r < (l.map Prod.snd).sum →
    choicesPick l r ∈ l.map Prod.fst := by
  intro l
  induction l with
  | nil =>
      intro r _ hr1 hr2
      simp only [List.map_nil, List.sum_nil] at hr2
      omega
  | cons p rest ih =>
      intro r h0 hr1 hr2
      obtain ⟨c, w⟩ := p
      simp only [List.map_cons, List.sum_cons] at hr2
      by_cases hlt : r < w
      · simp [choicesPick, hlt]
      · have hw0 : (0 : Int) ≤ w := h0 w (by simp)
        have hmem := ih (r - w) (fun u hu => h0 u (by simp [hu])) (by omega) (by omega)
        simp only [choicesPick, if_neg hlt]
        simp only [List.map_cons, List.mem_cons]
        exact Or.inr hmem

theorem choicesPick_exists : ∀ (l : List (Int × Int)) (c : Int),
    c ∈ l.map Prod.fst → (∀ w ∈ l.map Prod.snd, 1 ≤ w) →
    ∃ r, 0 ≤ r ∧ r < (l.map Prod.snd).sum ∧ choicesPick l r = c := by
  intro l
  induction l with
  | nil => intro c hc _; simp at hc
  | cons p rest ih =>
      intro c hc h1
      obtain ⟨k, w⟩ := p
      have hw : (1 : Int) ≤ w := h1 w (by simp)
      have hrest0 : (0 : Int) ≤ (rest.map Prod.snd).sum :=
        List.sum_nonneg (fun u hu => le_trans zero_le_one (h1 u (by simp [hu])))
      rcases List.mem_cons.mp hc with h | h
      · refine ⟨0, le_refl 0, ?_, ?_⟩
        · simp only [List.map_cons, List.sum_cons]
          omega
        · simp [choicesPick, hw, h.symm]
          omega
      · obtain ⟨r, hr0, hrlt, hreq⟩ := ih c h (fun u hu => h1 u (by simp [hu]))
        refine ⟨w + r, by omega, ?_, ?_⟩
        · simp only [List.map_cons, List.sum_cons]
          omega
        · have hnlt : ¬ (w + r < w) := by omega
          simp only [choicesPick, if_neg hnlt]
          have : w + r - w = r := by ring
          rw [this, hreq]

theorem map_fst_filter_ne (l : List (Int × Int)) (sel : Int) :
    (l.filter (fun p => decide (p.1 ≠ sel))).map Prod.fst
      = (l.map Prod.fst).filter (fun x => decide (x ≠ sel)) := by
  induction l with
  | nil => rfl
  | cons p rest ih =>
      by_cases hp : p.1 = sel
      · simpa [List.filter_cons, hp] using ih
      · simpa [List.filter_cons, hp] using ih

theorem filter_ne_key_length : ∀ (l : List (Int × Int)) (sel : Int),
    (l.map Prod.fst).Nodup → sel ∈ l.map Prod.fst →
    (l.filter (fun p => decide (p.1 ≠ sel))).length + 1 = l.length := by
  intro l
  induction l with
  | nil => intro sel _ hsel; simp at hsel
  | cons p rest ih =>
      intro sel hnd hsel
      simp only [List.map_cons, List.nodup_cons] at hnd
      by_cases hp : p.1 = sel
      · have hrest : ∀ q ∈ rest, (fun q : Int × Int => decide (q.1 ≠ sel)) q = true := by
          intro q hq
          simp only [decide_eq_true_eq]
          intro hq1
          exact hnd.1 (by
            rw [hp, ← hq1]
            exact List.mem_map_of_mem Prod.fst hq)
        rw [List.filter_cons_of_neg (by simp [hp])]
        rw [List.filter_eq_self.mpr hrest]
        simp
      · have hsel' : sel ∈ rest.map Prod.fst := by
          rcases List.mem_cons.mp hsel with h | h
          · exact absurd h.symm hp
          · exact h
        rw [List.filter_cons_of_pos (by simp [hp])]
        have := ih sel hnd.2 hsel'
        simp only [List.length_cons]
        omega

theorem wupWeights_keys (invert : Bool) (pool : List (Int × Int)) :
    (wupWeights invert pool).map Prod.fst = pool.map Prod.fst := by
  cases invert with
  | false => rfl
  | true =>
      simp only [wupWeights, if_true, List.map_map]
      rfl

theorem wupWeights_length (invert : Bool) (pool : List (Int × Int)) :
    (wupWeights invert pool).length = pool.length := by
  cases invert with
  | false => rfl
  | true => simp [wupWeights]

theorem wupWeights_ge_one (invert : Bool) (pool : List (Int × Int))
    (h1 : ∀ w ∈ pool.map Prod.snd, 1 ≤ w) :
    ∀ w ∈ (wupWeights invert pool).map Prod.snd, 1 ≤ w := by
  cases invert with
  | false => exact h1
  | true =>
      intro w hw
      simp only [wupWeights, if_true, List.map_map, List.mem_map] at hw
      obtain ⟨p, hp, rfl⟩ := hw
      have hle : p.2 ≤ maxList (pool.map Prod.snd) :=
        maxList_ge _ p.2 (List.mem_map_of_mem Prod.snd hp)
      simp only [Function.comp]
      omega

theorem dictInsert_keys (l : List (Int × Int)) (k v : Int) :
    (dictInsert l k v).map Prod.fst =
      if (l.map Prod.fst).contains k then l.map Prod.fst else l.map Prod.fst ++ [k] := by
  by_cases hk : (l.map Prod.fst).contains k
  · rw [dictInsert, if_pos hk, if_pos hk, List.map_map]
    refine List.map_congr_left ?_
    intro p _
    by_cases hp : p.1 = k
    · simp [Function.comp, hp]
    · simp [Function.comp, hp]
  · rw [dictInsert, if_neg hk, if_neg hk]
    simp

theorem dictInsert_keys_nodup {l : List (Int × Int)} {k v : Int}
    (h : (l.map Prod.fst).Nodup) : ((dictInsert l k v).map Prod.fst).Nodup := by
  rw [dictInsert_keys]
  by_cases hk : (l.map Prod.fst).contains k
  · rw [if_pos hk]
    exact h
  · rw [if_neg hk]
    have hkmem : k ∉ l.map Prod.fst := by
      intro hmem
      exact hk (by simpa using hmem)
    simp [List.nodup_append, h, hkmem]

theorem dictInsert_keys_toFinset (l : List (Int × Int)) (k v : Int) :
    ((dictInsert l k v).map Prod.fst).toFinset = insert k (l.map Prod.fst).toFinset := by
  rw [dictInsert_keys]
  by_cases hk : (l.map Prod.fst).contains k
  · rw [if_pos hk]
    have hkmem : k ∈ l.map Prod.fst := by simpa using hk
    exact (Finset.insert_eq_self.mpr (by simpa using hkmem)).symm
  · rw [if_neg hk]
    ext x
    simp [or_comm]

theorem dictInsert_values {l : List (Int × Int)} {k v : Int} :
    ∀ w ∈ (dictInsert l k v).map Prod.snd, w = v ∨ w ∈ l.map Prod.snd := by
  intro w hw
  rw [dictInsert] at hw
  by_cases hk : (l.map Prod.fst).contains k
  · rw [if_pos hk, List.map_map] at hw
    obtain ⟨p, hp, hpw⟩ := List.mem_map.mp hw
    by_cases hpk : p.1 = k
    · left
      simp [Function.comp, hpk] at hpw
      omega
    · right
      simp [Function.comp, hpk] at hpw
      rw [← hpw]
      exact List.mem_map_of_mem Prod.snd hp
  · rw [if_neg hk] at hw
    simp only [List.map_append, List.mem_append] at hw
    rcases hw with h | h
    · exact Or.inr h
    · left
      simpa using h

theorem pool_of_aux :
    ∀ (l : List (PyVal × Int)) (acc : List (Int × Int)),
      (acc.map Prod.fst).Nodup → (∀ w ∈ acc.map Prod.snd, 1 ≤ w) →
      (((l.foldl (fun acc p =>
          match pyToIntOpt p.1 with
          | none => acc
          | some k => dictInsert acc k (max 1 p.2)) acc).map Prod.fst).Nodup ∧
       (∀ w ∈ (l.foldl (fun acc p =>
          match pyToIntOpt p.1 with
          | none => acc
          | some k => dictInsert acc k (max 1 p.2)) acc).map Prod.snd, 1 ≤ w) ∧
       ((l.foldl (fun acc p =>
          match pyToIntOpt p.1 with
          | none => acc
          | some k => dictInsert acc k (max 1 p.2)) acc).map Prod.fst).toFinset
          = (acc.map Prod.fst).toFinset ∪ ((l.map Prod.fst).filterMap pyToIntOpt).toFinset) := by
  intro l
  induction l with
  | nil =>
      intro acc h1 h2
      exact ⟨h1, h2, by simp⟩
  | cons p rest ih =>
      intro acc h1 h2
      simp only [List.foldl_cons]
      cases hp : pyToIntOpt p.1 with
      | none =>
          obtain ⟨ha, hb, hc⟩ := ih acc h1 h2
          refine ⟨ha, hb, ?_⟩
          rw [hc]
          simp [List.map_cons, List.filterMap_cons, hp]
      | some k =>
          have h1' : ((dictInsert acc k (max 1 p.2)).map Prod.fst).Nodup :=
            dictInsert_keys_nodup h1
          have h2' : ∀ w ∈ (dictInsert acc k (max 1 p.2)).map Prod.snd, 1 ≤ w := by
            intro w hw
            rcases dictInsert_values w hw with h | h
            · rw [h]
              exact le_max_left 1 p.2
            · exact h2 w h
          obtain ⟨ha, hb, hc⟩ := ih (dictInsert acc k (max 1 p.2)) h1' h2'
          refine ⟨ha, hb, ?_⟩
          rw [hc, dictInsert_keys_toFinset]
          simp only [List.map_cons, List.filterMap_cons, hp]
          rw [List.toFinset_cons]
          rw [Finset.union_insert, Finset.insert_union]

theorem pool_of_spec (counter : List (PyVal × Int)) :
    ((pool_of counter).map Prod.fst).Nodup ∧
    (∀ w ∈ (pool_of counter).map Prod.snd, 1 ≤ w) ∧
    ((pool_of counter).map Prod.fst).toFinset
      = ((counter.map Prod.fst).filterMap pyToIntOpt).toFinset := by
  have h := pool_of_aux counter [] (by simp) (by simp)
  refine ⟨h.1, h.2.1, ?_⟩
  rw [show pool_of counter = counter.foldl (fun acc p =>
      match pyToIntOpt p.1 with
      | none => acc
      | some k => dictInsert acc k (max 1 p.2)) [] from rfl]
  rw [h.2.2]
  simp

theorem wupLoop_spec (invert : Bool) :
    ∀ (fuel : Nat) (pool : List (Int × Int)) (rs : Rs),
      (∀ w ∈ pool.map Prod.snd, 1 ≤ w) →
      (pool.map Prod.fst).Nodup →
      fuel ≤ pool.length →
      ∃ l rs2, wupLoop invert fuel pool rs = (some l, rs2) ∧
        l.length = fuel ∧ l.Nodup ∧ ∀ x ∈ l, x ∈ pool.map Prod.fst := by
  intro fuel
  induction fuel with
  | zero =>
      intro pool rs _ _ _
      exact ⟨[], rs, rfl, rfl, List.nodup_nil, by simp⟩
  | succ fuel ih =>
      intro pool rs h1 h2 h3
      have hpoolpos : 0 < pool.length := lt_of_lt_of_le (Nat.succ_pos fuel) h3
      have hw1 := wupWeights_ge_one invert pool h1
      have hkeys := wupWeights_keys invert pool
      have hlen := wupWeights_length invert pool
      have hlensum : (pool.length : Int) ≤ ((wupWeights invert pool).map Prod.snd).sum := by
        have hs := sum_ge_length ((wupWeights invert pool).map Prod.snd) hw1
        rwa [List.length_map, hlen] at hs
      have htot : 0 < ((wupWeights invert pool).map Prod.snd).sum :=
        lt_of_lt_of_le (by exact_mod_cast hpoolpos) hlensum
      set r := List.headD rs 0 with hr
      set total := ((wupWeights invert pool).map Prod.snd).sum with htotal
      have hrmod1 : 0 ≤ (r : Int) % total := Int.emod_nonneg _ (ne_of_gt htot)
      have hrmod2 : (r : Int) % total < total := Int.emod_lt_of_pos _ htot
      set sel := choicesPick (wupWeights invert pool) ((r : Int) % total) with hselDef
      have hsel : sel ∈ pool.map Prod.fst := by
        rw [← hkeys]
        exact choicesPick_mem (wupWeights invert pool) _
          (fun w hw => le_trans zero_le_one (hw1 w hw)) hrmod1 hrmod2
      set pool2 := pool.filter (fun p => decide (p.1 ≠ sel)) with hpool2
      have hkeys2 : pool2.map Prod.fst = (pool.map Prod.fst).filter (fun x => decide (x ≠ sel)) :=
        map_fst_filter_ne pool sel
      have hnodup2 : (pool2.map Prod.fst).Nodup := by
        rw [hkeys2]
        exact h2.filter _
      have hlen2 : pool2.length + 1 = pool.length := filter_ne_key_length pool sel h2 hsel
      have hw2 : ∀ w ∈ pool2.map Prod.snd, 1 ≤ w := by
        intro w hw
        obtain ⟨p, hp, rfl⟩ := List.mem_map.mp hw
        exact h1 p.2 (List.mem_map_of_mem Prod.snd (List.mem_of_mem_filter hp))
      have hfuel2 : fuel ≤ pool2.length := by omega
      obtain ⟨l, rs2, heq, hlenl, hnd, hsub⟩ := ih pool2 rs.tail hw2 hnodup2 hfuel2
      have hselnot : sel ∉ l := by
        intro hmem
        have := hsub sel hmem
        rw [hkeys2] at this
        have := List.of_mem_filter this
        simp at this
      refine ⟨sel :: l, rs2, ?_, by simp [hlenl], ?_, ?_⟩
      · show wupLoop invert (fuel + 1) pool rs = (some (sel :: l), rs2)
        have hexp : wupLoop invert (fuel + 1) pool rs =
            (if ((wupWeights invert pool).map Prod.snd).sum ≤ 0 then (none, rs)
             else
               match wupLoop invert fuel
                   (pool.filter (fun p => decide (p.1 ≠
                     choicesPick (wupWeights invert pool)
                       (((List.headD rs 0 : Nat) : Int) %
                         ((wupWeights invert pool).map Prod.snd).sum)))) (List.tail rs) with
               | (some rest, rs3) => (some (choicesPick (wupWeights invert pool)
                     (((List.headD rs 0 : Nat) : Int) %
                       ((wupWeights invert pool).map Prod.snd).sum) :: rest), rs3)
               | (none, rs3) => (none, rs3)) := rfl
        rw [hexp, if_neg (not_le.mpr htot)]
        simp only [hpool2, hselDef, htotal, hr] at heq
        rw [heq]
      · exact List.nodup_cons.mpr ⟨hselnot, hnd⟩
      · intro x hx
        rcases List.mem_cons.mp hx with h | h
        · rw [h]
          exact hsel
        · have := hsub x h
          rw [hkeys2] at this
          exact List.mem_of_mem_filter this

theorem weighted_unique_pick_spec (counter : List (PyVal × Int)) (k : Nat)
    (invert : Bool) (rs : Rs) :
    ∃ l rs2, weighted_unique_pick counter k invert rs = (some l, rs2) ∧
      l.length = min k (pool_of counter).length ∧
      l.Nodup ∧
      l.Sorted (fun a b : Int => a ≤ b) ∧
      ∀ x ∈ l, x ∈ (pool_of counter).map Prod.fst := by
  obtain ⟨hnd, hw, _⟩ := pool_of_spec counter
  obtain ⟨l, rs2, heq, hlen, hnod, hsub⟩ :=
    wupLoop_spec invert (min k (pool_of counter).length) (pool_of counter) rs hw hnd
      (min_le_right _ _)
  refine ⟨sortAsc l, rs2, ?_, ?_, sortAsc_nodup hnod, sortAsc_sorted l, ?_⟩
  · rw [weighted_unique_pick, heq]
  · rw [sortAsc_length, hlen]
  · intro x hx
    exact hsub x (sortAsc_mem.mp hx)

theorem weighted_unique_pick_selectable (counter : List (PyVal × Int)) (k : Nat)
    (invert : Bool) (hk : 1 ≤ k) (v : Int)
    (hv : v ∈ (pool_of counter).map Prod.fst) :
    ∃ rs l rs2, weighted_unique_pick counter k invert rs = (some l, rs2) ∧ v ∈ l := by
  obtain ⟨hnd, hw, _⟩ := pool_of_spec counter
  have hlenpos : 1 ≤ (pool_of counter).length := by
    have := List.length_pos_of_mem hv
    rw [List.length_map] at this
    omega
  have hm : 1 ≤ min k (pool_of counter).length := Nat.le_min.mpr ⟨hk, hlenpos⟩
  obtain ⟨m, hm'⟩ : ∃ m, min k (pool_of counter).length = m + 1 :=
    ⟨min k (pool_of counter).length - 1, by omega⟩
  have hwW := wupWeights_ge_one invert (pool_of counter) hw
  have hkeysW := wupWeights_keys invert (pool_of counter)
  obtain ⟨r0, hr0, hr1, hpick⟩ := choicesPick_exists (wupWeights invert (pool_of counter)) v
    (by rw [hkeysW]; exact hv) hwW
  have htot : 0 < ((wupWeights invert (pool_of counter)).map Prod.snd).sum :=
    lt_of_le_of_lt hr0 hr1
  have hmod : (((r0.toNat : Nat) : Int)) % ((wupWeights invert (pool_of counter)).map Prod.snd).sum
      = r0 := by
    rw [Int.toNat_of_nonneg hr0]
    exact Int.emod_eq_of_lt hr0 hr1
  -- the shrunken pool for the recursive rounds
  have hsel : choicesPick (wupWeights invert (pool_of counter))
      ((((r0.toNat : Nat) : Int)) % ((wupWeights invert (pool_of counter)).map Prod.snd).sum)
      = v := by rw [hmod, hpick]
  have hkeys2 := map_fst_filter_ne (pool_of counter) v
  have hnodup2 : (((pool_of counter).filter (fun p => decide (p.1 ≠ v))).map Prod.fst).Nodup := by
    rw [hkeys2]
    exact hnd.filter _
  have hlen2 : ((pool_of counter).filter (fun p => decide (p.1 ≠ v))).length + 1
      = (pool_of counter).length := filter_ne_key_length (pool_of counter) v hnd hv
  have hw2 : ∀ w ∈ ((pool_of counter).filter (fun p => decide (p.1 ≠ v))).map Prod.snd, 1 ≤ w := by
    intro w hwmem
    obtain ⟨p, hp, rfl⟩ := List.mem_map.mp hwmem
    exact hw p.2 (List.mem_map_of_mem Prod.snd (List.mem_of_mem_filter hp))
  have hfuel2 : m ≤ ((pool_of counter).filter (fun p => decide (p.1 ≠ v))).length := by
    have : m + 1 ≤ (pool_of counter).length := by
      rw [← hm']
      exact min_le_right _ _
    omega
  obtain ⟨l, rs2, heq, _, _, _⟩ :=
    wupLoop_spec invert m ((pool_of counter).filter (fun p => decide (p.1 ≠ v))) [] hw2 hnodup2
      hfuel2
  have hloop : wupLoop invert (m + 1) (pool_of counter) [r0.toNat] = (some (v :: l), rs2) := by
    have hexp : wupLoop invert (m + 1) (pool_of counter) [r0.toNat] =
        (if ((wupWeights invert (pool_of counter)).map Prod.snd).sum ≤ 0 then
          (none, [r0.toNat])
         else
           match wupLoop invert m
               ((pool_of counter).filter (fun p => decide (p.1 ≠
                 choicesPick (wupWeights invert (pool_of counter))
                   (((r0.toNat : Nat) : Int) %
                     ((wupWeights invert (pool_of counter)).map Prod.snd).sum)))) [] with
           | (some rest, rs3) => (some (choicesPick (wupWeights invert (pool_of counter))
                 (((r0.toNat : Nat) : Int) %
                   ((wupWeights invert (pool_of counter)).map Prod.snd).sum) :: rest), rs3)
           | (none, rs3) => (none, rs3)) := rfl
    rw [hexp, if_neg (not_le.mpr htot)]
    rw [hsel, heq]
  refine ⟨[r0.toNat], sortAsc (v :: l), rs2, ?_, ?_⟩
  · rw [weighted_unique_pick, hm', hloop]
  · rw [sortAsc_mem]
    exact List.mem_cons_self v l

/-! ## Claim C10 -/

/-- C10: in `_weighted_unique_pick` every pool weight is clamped to at least
1 (`max(1, w)`), and the inverted weights `max_weight - w + 1` are likewise
at least 1, so the weight total handed to `random.choices` is always
positive: the `ValueError` branch is unreachable (the result is always
`some`), the function returns exactly `min(k, number of distinct
int-coercible keys in the counter)` distinct picks, and every pool key --
including zero-count ones, whose clamped weight is still 1 -- remains
selectable by some draw of the random source. -/
theorem c10_weighted_pick_safety (counter : List (PyVal × Int)) (k : Nat)
    (invert : Bool) (rs : Rs) :
    ∃ l rs2, weighted_unique_pick counter k invert rs = (some l, rs2) ∧
      l.length = min k (pool_of counter).length ∧
      (pool_of counter).length
        = ((counter.map Prod.fst).filterMap pyToIntOpt).toFinset.card ∧
      l.Nodup ∧
      (∀ w ∈ (pool_of counter).map Prod.snd, 1 ≤ w) ∧
      (∀ pool : List (Int × Int), (∀ w ∈ pool.map Prod.snd, 1 ≤ w) →
        ∀ w ∈ (wupWeights invert pool).map Prod.snd, 1 ≤ w) ∧
      (1 ≤ k → ∀ v ∈ (pool_of counter).map Prod.fst,
        ∃ rs0 l0 rs3, weighted_unique_pick counter k invert rs0 = (some l0, rs3) ∧ v ∈ l0) := by
  obtain ⟨hnd, hw, hfin⟩ := pool_of_spec counter
  obtain ⟨l, rs2, heq, hlen, hnod, _, _⟩ := weighted_unique_pick_spec counter k invert rs
  refine ⟨l, rs2, heq, hlen, ?_, hnod, hw, fun pool h => wupWeights_ge_one invert pool h, ?_⟩
  · rw [← hfin, List.toFinset_card_of_nodup hnd, List.length_map]
  · intro hk v hv
    exact weighted_unique_pick_selectable counter k invert hk v hv

/-! ## Supporting lemmas for the other strategies -/

theorem randint_spec (lo hi : Int) (rs : Rs) (h : lo ≤ hi) :
    lo ≤ (randint lo hi rs).1 ∧ (randint lo hi rs).1 ≤ hi ∧
      (randint lo hi rs).2 = List.tail rs := by
  have hpos : 0 < hi - lo + 1 := by omega
  have h1 : 0 ≤ ((List.headD rs 0 : Nat) : Int) % (hi - lo + 1) :=
    Int.emod_nonneg _ (ne_of_gt hpos)
  have h2 : ((List.headD rs 0 : Nat) : Int) % (hi - lo + 1) < hi - lo + 1 :=
    Int.emod_lt_of_pos _ hpos
  refine ⟨?_, ?_, rfl⟩
  · show lo ≤ lo + ((List.headD rs 0 : Nat) : Int) % (hi - lo + 1)
    omega
  · show lo + ((List.headD rs 0 : Nat) : Int) % (hi - lo + 1) ≤ hi
    omega

theorem getD_not_mem_eraseIdx : ∀ (l : List Int) (i : Nat), l.Nodup → i < l.length →
    l.getD i 0 ∉ l.eraseIdx i := by
  intro l
  induction l with
  | nil => intro i _ hi; simp at hi
  | cons x xs ih =>
      intro i hnd hi
      rcases List.nodup_cons.mp hnd with ⟨hx, hxs⟩
      cases i with
      | zero =>
          simpa using hx
      | succ i =>
          simp only [List.length_cons, Nat.succ_lt_succ_iff] at hi
          have hgetd : (x :: xs).getD (i + 1) 0 = xs.getD i 0 := rfl
          have hxi : xs.getD i 0 ∈ xs := by
            rw [List.getD_eq_getElem xs 0 hi]
            exact List.getElem_mem hi
          rw [hgetd]
          show xs.getD i 0 ∉ x :: xs.eraseIdx i
          intro hmem
          rcases List.mem_cons.mp hmem with h | h
          · exact hx (h ▸ hxi)
          · exact ih i hxs hi h

theorem sampleLoop_spec : ∀ (k : Nat) (l : List Int) (rs : Rs),
    k ≤ l.length → l.Nodup →
    (sampleLoop k l rs).1.length = k ∧ (sampleLoop k l rs).1.Nodup ∧
      ∀ x ∈ (sampleLoop k l rs).1, x ∈ l := by
  intro k
  induction k with
  | zero =>
      intro l rs _ _
      exact ⟨rfl, List.nodup_nil, by simp [sampleLoop]⟩
  | succ k ih =>
      intro l rs hk hnd
      have hlpos : 0 < l.length := lt_of_lt_of_le (Nat.succ_pos k) hk
      have hne : l.isEmpty = false := by
        cases l with
        | nil => simp at hlpos
        | cons a as => rfl
      have hi : (List.headD rs 0) % l.length < l.length := Nat.mod_lt _ hlpos
      have hexp : sampleLoop (k + 1) l rs =
          (l.getD ((List.headD rs 0) % l.length) 0 ::
            (sampleLoop k (l.eraseIdx ((List.headD rs 0) % l.length)) (List.tail rs)).1,
           (sampleLoop k (l.eraseIdx ((List.headD rs 0) % l.length)) (List.tail rs)).2) := by
        simp only [sampleLoop, hne, Bool.false_eq_true, if_false, randNat]
      have hlen2 : (l.eraseIdx ((List.headD rs 0) % l.length)).length = l.length - 1 := by
        rw [List.length_eraseIdx, if_pos hi]
      have hnd2 : (l.eraseIdx ((List.headD rs 0) % l.length)).Nodup :=
        (List.eraseIdx_sublist l _).nodup hnd
      have hk2 : k ≤ (l.eraseIdx ((List.headD rs 0) % l.length)).length := by omega
      obtain ⟨ha, hb, hc⟩ := ih (l.eraseIdx ((List.headD rs 0) % l.length)) (List.tail rs) hk2 hnd2
      have hxl : l.getD ((List.headD rs 0) % l.length) 0 ∈ l := by
        rw [List.getD_eq_getElem l 0 hi]
        exact List.getElem_mem hi
      refine ⟨?_, ?_, ?_⟩
      · rw [hexp]
        simp only [List.length_cons]
        rw [ha]
      · rw [hexp]
        refine List.nodup_cons.mpr ⟨?_, hb⟩
        intro hmem
        exact getD_not_mem_eraseIdx l _ hnd hi (hc _ hmem)
      · intro x hx
        rw [hexp] at hx
        rcases List.mem_cons.mp hx with h | h
        · exact h ▸ hxl
        · exact (List.eraseIdx_sublist l _).subset (hc x h)

theorem sampleK_spec (l : List Int) (k : Nat) (rs : Rs) (hk : k ≤ l.length)
    (hnd : l.Nodup) :
    ∃ res rs2, sampleK l k rs = (some res, rs2) ∧
      res.length = k ∧ res.Nodup ∧ ∀ x ∈ res, x ∈ l := by
  obtain ⟨ha, hb, hc⟩ := sampleLoop_spec k l rs hk hnd
  refine ⟨(sampleLoop k l rs).1, (sampleLoop k l rs).2, ?_, ha, hb, hc⟩
  rw [sampleK, if_neg (not_lt.mpr hk)]

/-- The "take the first `k` keys of a stable descending sort" pattern used by
the Overdue strategy and the hot/overdue pool builders. -/
theorem sortDesc_take_keys_spec (items : List (Int × Int)) (k : Nat) :
    (sortAsc (((sortBySndDesc items).take k).map Prod.fst)).length ≤ k ∧
    (sortAsc (((sortBySndDesc items).take k).map Prod.fst)).Sorted
      (fun a b : Int => a ≤ b) ∧
    ((items.map Prod.fst).Nodup →
      (sortAsc (((sortBySndDesc items).take k).map Prod.fst)).Nodup) ∧
    ∀ x ∈ sortAsc (((sortBySndDesc items).take k).map Prod.fst),
      x ∈ items.map Prod.fst := by
  have hperm : List.Perm ((sortBySndDesc items).map Prod.fst) (items.map Prod.fst) :=
    (sortBySndDesc_perm items).map Prod.fst
  refine ⟨?_, sortAsc_sorted _, ?_, ?_⟩
  · rw [sortAsc_length, List.map_take]
    exact List.length_take_le _ _
  · intro hnd
    refine sortAsc_nodup ?_
    rw [List.map_take]
    exact (List.take_sublist _ _).nodup (hperm.nodup_iff.mpr hnd)
  · intro x hx
    rw [sortAsc_mem, List.map_take] at hx
    exact hperm.mem_iff.mp (List.mem_of_mem_take hx)

/-- The AI-mode candidate pool `sorted(set(hot[:j] ++ overdue[:j] ++ range))`:
distinct, sorted, at least as large as the (duplicate-free) full range, and
every element comes from one of the three sources. -/
theorem ai_candidate_spec (hot overdue range_ : List Int) (hnd : range_.Nodup) :
    (sortAsc ((hot ++ overdue ++ range_).dedup)).Nodup ∧
    range_.length ≤ (sortAsc ((hot ++ overdue ++ range_).dedup)).length ∧
    ∀ x ∈ sortAsc ((hot ++ overdue ++ range_).dedup),
      x ∈ hot ∨ x ∈ overdue ∨ x ∈ range_ := by
  have hmem : ∀ x, x ∈ sortAsc ((hot ++ overdue ++ range_).dedup) ↔
      (x ∈ hot ∨ x ∈ overdue ∨ x ∈ range_) := by
    intro x
    rw [sortAsc_mem, List.mem_dedup]
    simp [or_assoc]
  refine ⟨sortAsc_nodup (List.nodup_dedup _), ?_, fun x hx => (hmem x).mp hx⟩
  have hsub : range_ ⊆ sortAsc ((hot ++ overdue ++ range_).dedup) := by
    intro x hx
    exact (hmem x).mpr (Or.inr (Or.inr hx))
  exact (List.subperm_of_subset hnd hsub).length_le

theorem pool_of_keys_bound {counter : List (PyVal × Int)} {lo hi : Int}
    (h : ∀ p ∈ counter, ∀ x : Int, pyToIntOpt p.1 = some x → lo ≤ x ∧ x ≤ hi) :
    ∀ x ∈ (pool_of counter).map Prod.fst, lo ≤ x ∧ x ≤ hi := by
  intro x hx
  have hfin := (pool_of_spec counter).2.2
  have hx' : x ∈ (counter.map Prod.fst).filterMap pyToIntOpt := by
    have hmem : x ∈ ((pool_of counter).map Prod.fst).toFinset := List.mem_toFinset.mpr hx
    rw [hfin] at hmem
    exact List.mem_toFinset.mp hmem
  obtain ⟨v, hv, hvx⟩ := List.mem_filterMap.mp hx'
  obtain ⟨p, hp, rfl⟩ := List.mem_map.mp hv
  exact h p hp x hvx

theorem safe_int_list_mostCommon_bound {counter : List (PyVal × Int)} {lo hi : Int}
    (h : ∀ p ∈ counter, ∀ x : Int, pyToIntOpt p.1 = some x → lo ≤ x ∧ x ≤ hi)
    (k : Nat) :
    ∀ x ∈ safe_int_list ((mostCommon counter k).map Prod.fst), lo ≤ x ∧ x ≤ hi := by
  intro x hx
  obtain ⟨v, hv, hvx⟩ := List.mem_filterMap.mp hx
  obtain ⟨p, hp, rfl⟩ := List.mem_map.mp hv
  have hp' : p ∈ counter :=
    (sortBySndDesc_perm counter).mem_iff.mp (List.mem_of_mem_take hp)
  exact h p hp' x hvx

/-- The balanced main pick: one value from each decade, then sorted. -/
theorem balanced_main_pick_spec (rs : Rs) :
    ∃ p1 p2 p3 p4 p5 rs5, balanced_main_pick rs = (sortAsc [p1, p2, p3, p4, p5], rs5) ∧
      (1 ≤ p1 ∧ p1 ≤ 10) ∧ (11 ≤ p2 ∧ p2 ≤ 20) ∧ (21 ≤ p3 ∧ p3 ≤ 30) ∧
      (31 ≤ p4 ∧ p4 ≤ 40) ∧ (41 ≤ p5 ∧ p5 ≤ 50) := by
  refine ⟨(randint 1 10 rs).1,
          (randint 11 20 (randint 1 10 rs).2).1,
          (randint 21 30 (randint 11 20 (randint 1 10 rs).2).2).1,
          (randint 31 40 (randint 21 30 (randint 11 20 (randint 1 10 rs).2).2).2).1,
          (randint 41 50 (randint 31 40 (randint 21 30 (randint 11 20 (randint 1 10 rs).2).2).2).2).1,
          (randint 41 50 (randint 31 40 (randint 21 30 (randint 11 20 (randint 1 10 rs).2).2).2).2).2,
          rfl, ?_, ?_, ?_, ?_, ?_⟩
  · have := randint_spec 1 10 rs (by omega)
    exact ⟨this.1, this.2.1⟩
  · have := randint_spec 11 20 (randint 1 10 rs).2 (by omega)
    exact ⟨this.1, this.2.1⟩
  · have := randint_spec 21 30 (randint 11 20 (randint 1 10 rs).2).2 (by omega)
    exact ⟨this.1, this.2.1⟩
  · have := randint_spec 31 40 (randint 21 30 (randint 11 20 (randint 1 10 rs).2).2).2 (by omega)
    exact ⟨this.1, this.2.1⟩
  · have := randint_spec 41 50
      (randint 31 40 (randint 21 30 (randint 11 20 (randint 1 10 rs).2).2).2).2 (by omega)
    exact ⟨this.1, this.2.1⟩

/-- The balanced star pick: one value from `[1,6]`, one from `[7,12]`. -/
theorem balanced_star_pick_spec (rs : Rs) :
    ∃ s1 s2 rs2, balanced_star_pick rs = (sortAsc [s1, s2], rs2) ∧
      (1 ≤ s1 ∧ s1 ≤ 6) ∧ (7 ≤ s2 ∧ s2 ≤ 12) := by
  refine ⟨(randint 1 6 rs).1, (randint 7 12 (randint 1 6 rs).2).1,
          (randint 7 12 (randint 1 6 rs).2).2, rfl, ?_, ?_⟩
  · have := randint_spec 1 6 rs (by omega)
    exact ⟨this.1, this.2.1⟩
  · have := randint_spec 7 12 (randint 1 6 rs).2 (by omega)
    exact ⟨this.1, this.2.1⟩

theorem mainGapItems_keys (draws : List DrawDict) :
    (mainGapItems draws).map Prod.fst = MAIN_RANGE := by
  simp [mainGapItems, List.map_map, Function.comp_def]

theorem starGapItems_keys (draws : List DrawDict) :
    (starGapItems draws).map Prod.fst = STAR_RANGE := by
  simp [starGapItems, List.map_map, Function.comp_def]

/-- Invariants of the AI-mode blend: always succeeds, 5 sorted distinct main
numbers and 2 sorted distinct stars, each from the hot pool, the overdue
pool, or the full domain. -/
theorem ai_blend_pick_spec (main_counter star_counter : List (PyVal × Int))
    (draws : List DrawDict) (rs : Rs) :
    ∃ m s rs2, ai_blend_pick main_counter star_counter draws rs = (some (m, s), rs2) ∧
      m.length = 5 ∧ m.Sorted (fun a b : Int => a ≤ b) ∧ m.Nodup ∧
      (∀ x ∈ m, x ∈ safe_int_list ((mostCommon main_counter 12).map Prod.fst) ∨
        x ∈ MAIN_RANGE) ∧
      s.length = 2 ∧ s.Sorted (fun a b : Int => a ≤ b) ∧ s.Nodup ∧
      (∀ x ∈ s, x ∈ safe_int_list ((mostCommon star_counter 6).map Prod.fst) ∨
        x ∈ STAR_RANGE) := by
  obtain ⟨hcnodM, hclenM, hcmemM⟩ := ai_candidate_spec
      ((safe_int_list ((mostCommon main_counter 12).map Prod.fst)).take 6)
      ((((sortBySndDesc (mainGapItems draws)).take 12).map Prod.fst).take 6)
      MAIN_RANGE MAIN_RANGE_nodup
  have h5le : 5 ≤ (sortAsc (((safe_int_list ((mostCommon main_counter 12).map Prod.fst)).take 6
      ++ (((sortBySndDesc (mainGapItems draws)).take 12).map Prod.fst).take 6
      ++ MAIN_RANGE).dedup)).length := by
    refine le_trans ?_ hclenM
    rw [MAIN_RANGE_length]
    omega
  obtain ⟨resM, rsM, heqM, hlenM, hndM, hsubM⟩ := sampleK_spec _ 5 rs h5le hcnodM
  obtain ⟨hcnodS, hclenS, hcmemS⟩ := ai_candidate_spec
      ((safe_int_list ((mostCommon star_counter 6).map Prod.fst)).take 3)
      ((((sortBySndDesc (starGapItems draws)).take 6).map Prod.fst).take 3)
      STAR_RANGE STAR_RANGE_nodup
  have h2le : 2 ≤ (sortAsc (((safe_int_list ((mostCommon star_counter 6).map Prod.fst)).take 3
      ++ (((sortBySndDesc (starGapItems draws)).take 6).map Prod.fst).take 3
      ++ STAR_RANGE).dedup)).length := by
    refine le_trans ?_ hclenS
    rw [STAR_RANGE_length]
    omega
  obtain ⟨resS, rsS, heqS, hlenS, hndS, hsubS⟩ := sampleK_spec _ 2 rsM h2le hcnodS
  have hexp : ai_blend_pick main_counter star_counter draws rs =
      (match sampleK (sortAsc (((safe_int_list ((mostCommon main_counter 12).map Prod.fst)).take 6
          ++ (((sortBySndDesc (mainGapItems draws)).take 12).map Prod.fst).take 6
          ++ MAIN_RANGE).dedup)) 5 rs with
       | (none, rs1) => (none, rs1)
       | (some main_sample, rs1) =>
           match sampleK (sortAsc (((safe_int_list ((mostCommon star_counter 6).map Prod.fst)).take 3
               ++ (((sortBySndDesc (starGapItems draws)).take 6).map Prod.fst).take 3
               ++ STAR_RANGE).dedup)) 2 rs1 with
           | (none, rs2) => (none, rs2)
           | (some star_sample, rs2) =>
               (some (sortAsc main_sample, sortAsc star_sample), rs2)) := rfl
  have hfromM : ∀ x ∈ sortAsc resM,
      x ∈ safe_int_list ((mostCommon main_counter 12).map Prod.fst) ∨ x ∈ MAIN_RANGE := by
    intro x hx
    rcases hcmemM x (hsubM x (sortAsc_mem.mp hx)) with h | h | h
    · exact Or.inl (List.mem_of_mem_take h)
    · right
      have h1 : x ∈ ((sortBySndDesc (mainGapItems draws)).take 12).map Prod.fst :=
        List.mem_of_mem_take h
      rw [List.map_take] at h1
      have h2 : x ∈ (sortBySndDesc (mainGapItems draws)).map Prod.fst :=
        List.mem_of_mem_take h1
      have h3 := ((sortBySndDesc_perm (mainGapItems draws)).map Prod.fst).mem_iff.mp h2
      rwa [mainGapItems_keys] at h3
    · exact Or.inr h
  have hfromS : ∀ x ∈ sortAsc resS,
      x ∈ safe_int_list ((mostCommon star_counter 6).map Prod.fst) ∨ x ∈ STAR_RANGE := by
    intro x hx
    rcases hcmemS x (hsubS x (sortAsc_mem.mp hx)) with h | h | h
    · exact Or.inl (List.mem_of_mem_take h)
    · right
      have h1 : x ∈ ((sortBySndDesc (starGapItems draws)).take 6).map Prod.fst :=
        List.mem_of_mem_take h
      rw [List.map_take] at h1
      have h2 : x ∈ (sortBySndDesc (starGapItems draws)).map Prod.fst :=
        List.mem_of_mem_take h1
      have h3 := ((sortBySndDesc_perm (starGapItems draws)).map Prod.fst).mem_iff.mp h2
      rwa [starGapItems_keys] at h3
    · exact Or.inr h
  refine ⟨sortAsc resM, sortAsc resS, rsS, ?_, ?_, sortAsc_sorted _, sortAsc_nodup hndM,
    hfromM, ?_, sortAsc_sorted _, sortAsc_nodup hndS, hfromS⟩
  · rw [hexp]
    simp only [heqM, heqS]
  · rw [sortAsc_length, hlenM]
  · rw [sortAsc_length, hlenS]

/-- C1, counterexample: the claim quantifies over *every* input counter, but
the Hot Numbers picks come from the counter's keys: with
`main_counter = {99: 1}`, `build_line` returns the out-of-range main number
99 (and the claim's "all values in [1,50]" fails). -/
theorem c1_counterexample :
    (build_line "Hot Numbers" [(PyVal.vInt 99, 1)] [(PyVal.vInt 3, 1)] [] [0, 0]).1
      = some ([99], [3]) ∧ ¬((99 : Int) ≤ 50) := by
  constructor
  · decide
  · decide

/-- C1 (amended): for every strategy name and every input, `build_line`
succeeds and returns `main` of length at most 5, sorted ascending with no
duplicates, and `stars` of length at most 2, sorted ascending with no
duplicates; and *provided every int-coercible key of the supplied counters
lies in the number range* ([1,50] for main, [1,12] for stars) -- as is the
case for the frequency counters the app builds from in-range draw data --
all returned values are in range.  (Without that proviso the Hot/Cold/AI
strategies can return an out-of-range counter key, see the
counterexample.) -/
theorem c1_build_line_invariants (strategy : String)
    (main_counter star_counter : List (PyVal × Int)) (draws : List DrawDict) (rs : Rs)
    (hmc : ∀ p ∈ main_counter, ∀ x : Int, pyToIntOpt p.1 = some x → 1 ≤ x ∧ x ≤ 50)
    (hsc : ∀ p ∈ star_counter, ∀ x : Int, pyToIntOpt p.1 = some x → 1 ≤ x ∧ x ≤ 12) :
    ∃ m s rs2, build_line strategy main_counter star_counter draws rs = (some (m, s), rs2) ∧
      m.length ≤ 5 ∧ m.Sorted (fun a b : Int => a ≤ b) ∧ m.Nodup ∧
      (∀ x ∈ m, 1 ≤ x ∧ x ≤ 50) ∧
      s.length ≤ 2 ∧ s.Sorted (fun a b : Int => a ≤ b) ∧ s.Nodup ∧
      (∀ x ∈ s, 1 ≤ x ∧ x ≤ 12) := by
  by_cases h1 : strategy = "Hot Numbers"
  · subst h1
    have hred : build_line "Hot Numbers" main_counter star_counter draws rs =
        (match weighted_unique_pick main_counter 5 false rs with
         | (none, rs1) => (none, rs1)
         | (some main_nums, rs1) =>
             match weighted_unique_pick star_counter 2 false rs1 with
             | (none, rs2) => (none, rs2)
             | (some stars, rs2) => (some (main_nums, stars), rs2)) := rfl
    obtain ⟨m, rs1, hm, hmlen, hmnd, hmsort, hmsub⟩ :=
      weighted_unique_pick_spec main_counter 5 false rs
    obtain ⟨s, rs2, hs2, hslen, hsnd, hssort, hssub⟩ :=
      weighted_unique_pick_spec star_counter 2 false rs1
    refine ⟨m, s, rs2, ?_, ?_, hmsort, hmnd, ?_, ?_, hssort, hsnd, ?_⟩
    · rw [hred]
      simp only [hm, hs2]
    · rw [hmlen]
      exact min_le_left _ _
    · intro x hx
      exact pool_of_keys_bound hmc x (hmsub x hx)
    · rw [hslen]
      exact min_le_left _ _
    · intro x hx
      exact pool_of_keys_bound hsc x (hssub x hx)
  · by_cases h2 : strategy = "Cold Numbers"
    · subst h2
      have hred : build_line "Cold Numbers" main_counter star_counter draws rs =
          (match weighted_unique_pick main_counter 5 true rs with
           | (none, rs1) => (none, rs1)
           | (some main_nums, rs1) =>
               match weighted_unique_pick star_counter 2 true rs1 with
               | (none, rs2) => (none, rs2)
               | (some stars, rs2) => (some (main_nums, stars), rs2)) := rfl
      obtain ⟨m, rs1, hm, hmlen, hmnd, hmsort, hmsub⟩ :=
        weighted_unique_pick_spec main_counter 5 true rs
      obtain ⟨s, rs2, hs2, hslen, hsnd, hssort, hssub⟩ :=
        weighted_unique_pick_spec star_counter 2 true rs1
      refine ⟨m, s, rs2, ?_, ?_, hmsort, hmnd, ?_, ?_, hssort, hsnd, ?_⟩
      · rw [hred]
        simp only [hm, hs2]
      · rw [hmlen]
        exact min_le_left _ _
      · intro x hx
        exact pool_of_keys_bound hmc x (hmsub x hx)
      · rw [hslen]
        exact min_le_left _ _
      · intro x hx
        exact pool_of_keys_bound hsc x (hssub x hx)
    · by_cases h3 : strategy = "Overdue (Longest gap)"
      · subst h3
        have hred : build_line "Overdue (Longest gap)" main_counter star_counter draws rs =
            (some (sortAsc (((sortBySndDesc (mainGapItems draws)).take 5).map Prod.fst),
                   sortAsc (((sortBySndDesc (starGapItems draws)).take 2).map Prod.fst)),
             rs) := rfl
        obtain ⟨hmlen, hmsort, hmndf, hmsub⟩ := sortDesc_take_keys_spec (mainGapItems draws) 5
        obtain ⟨hslen, hssort, hsndf, hssub⟩ := sortDesc_take_keys_spec (starGapItems draws) 2
        refine ⟨_, _, rs, hred, hmlen, hmsort,
          hmndf (by rw [mainGapItems_keys]; exact MAIN_RANGE_nodup), ?_,
          hslen, hssort, hsndf (by rw [starGapItems_keys]; exact STAR_RANGE_nodup), ?_⟩
        · intro x hx
          have := hmsub x hx
          rw [mainGapItems_keys] at this
          exact MAIN_RANGE_mem.mp this
        · intro x hx
          have := hssub x hx
          rw [starGapItems_keys] at this
          exact STAR_RANGE_mem.mp this
      · by_cases h4 : strategy = "Balanced Picks"
        · subst h4
          obtain ⟨p1, p2, p3, p4, p5, rs5, heqM, b1, b2, b3, b4, b5⟩ :=
            balanced_main_pick_spec rs
          obtain ⟨s1, s2, rs2, heqS, e1, e2⟩ := balanced_star_pick_spec rs5
          have hred : build_line "Balanced Picks" main_counter star_counter draws rs =
              (match balanced_main_pick rs with
               | (main_nums, rs1) =>
                   match balanced_star_pick rs1 with
                   | (stars, rs2) => (some (main_nums, stars), rs2)) := rfl
          have hndM : ([p1, p2, p3, p4, p5] : List Int).Nodup := by
            simp only [List.nodup_cons, List.mem_cons, List.mem_singleton,
              List.not_mem_nil, not_false_eq_true, or_false, List.nodup_nil, and_true]
            push_neg
            omega
          have hndS : ([s1, s2] : List Int).Nodup := by
            simp only [List.nodup_cons, List.mem_cons, List.mem_singleton,
              List.not_mem_nil, not_false_eq_true, or_false, List.nodup_nil, and_true]
            push_neg
            omega
          refine ⟨sortAsc [p1, p2, p3, p4, p5], sortAsc [s1, s2], rs2, ?_, ?_,
            sortAsc_sorted _, sortAsc_nodup hndM, ?_, ?_, sortAsc_sorted _,
            sortAsc_nodup hndS, ?_⟩
          · rw [hred]
            simp only [heqM, heqS]
          · rw [sortAsc_length]
            simp
          · intro x hx
            rw [sortAsc_mem] at hx
            simp only [List.mem_cons, List.mem_singleton, List.not_mem_nil,
              or_false] at hx
            rcases hx with rfl | rfl | rfl | rfl | rfl <;> omega
          · rw [sortAsc_length]
            simp
          · intro x hx
            rw [sortAsc_mem] at hx
            simp only [List.mem_cons, List.mem_singleton, List.not_mem_nil,
              or_false] at hx
            rcases hx with rfl | rfl <;> omega
        · -- AI Mode (Blend): the else branch
          have hred : build_line strategy main_counter star_counter draws rs =
              ai_blend_pick main_counter star_counter draws rs := by
            simp only [build_line]
            rw [if_neg h1, if_neg h2, if_neg h3, if_neg h4]
          obtain ⟨m, s, rs2, heq, hmlen, hmsort, hmnd, hmsub, hslen, hssort, hsnd, hssub⟩ :=
            ai_blend_pick_spec main_counter star_counter draws rs
          refine ⟨m, s, rs2, by rw [hred, heq], by omega, hmsort, hmnd, ?_,
            by omega, hssort, hsnd, ?_⟩
          · intro x hx
            rcases hmsub x hx with h | h
            · exact safe_int_list_mostCommon_bound hmc 12 x h
            · exact MAIN_RANGE_mem.mp h
          · intro x hx
            rcases hssub x hx with h | h
            · exact safe_int_list_mostCommon_bound hsc 6 x h
            · exact STAR_RANGE_mem.mp h

/-- Witness for `c1_build_line_invariants` at concrete in-range counters and
the "Hot Numbers" strategy. -/
theorem c1_build_line_invariants_witness :
    (∀ p ∈ [((PyVal.vInt 7 : PyVal), (2 : Int))], ∀ x : Int,
        pyToIntOpt p.1 = some x → 1 ≤ x ∧ x ≤ 50) ∧
    (∀ p ∈ [((PyVal.vInt 3 : PyVal), (4 : Int))], ∀ x : Int,
        pyToIntOpt p.1 = some x → 1 ≤ x ∧ x ≤ 12) ∧
    (∃ m s rs2, build_line "Hot Numbers" [(PyVal.vInt 7, 2)] [(PyVal.vInt 3, 4)] [] [1, 1]
        = (some (m, s), rs2) ∧
      m.length ≤ 5 ∧ m.Sorted (fun a b : Int => a ≤ b) ∧ m.Nodup ∧
      (∀ x ∈ m, 1 ≤ x ∧ x ≤ 50) ∧
      s.length ≤ 2 ∧ s.Sorted (fun a b : Int => a ≤ b) ∧ s.Nodup ∧
      (∀ x ∈ s, 1 ≤ x ∧ x ≤ 12)) := by
  refine ⟨by decide, by decide, ?_⟩
  exact c1_build_line_invariants "Hot Numbers" [(PyVal.vInt 7, 2)] [(PyVal.vInt 3, 4)] [] [1, 1]
    (by decide) (by decide)

/-! ## Claim C6 -/

/-- C6: for every invocation (any counters, any draw history, any random
stream), "Balanced Picks" returns exactly one main number in each of the five
decade buckets `[1,10]`, `[11,20]`, `[21,30]`, `[31,40]`, `[41,50]`, and
exactly one star in `[1,6]` and one in `[7,12]`. -/
theorem c6_balanced_buckets (main_counter star_counter : List (PyVal × Int))
    (draws : List DrawDict) (rs : Rs) :
    ∃ m s rs2,
      build_line "Balanced Picks" main_counter star_counter draws rs = (some (m, s), rs2) ∧
      m.countP (fun x => decide (1 ≤ x ∧ x ≤ 10)) = 1 ∧
      m.countP (fun x => decide (11 ≤ x ∧ x ≤ 20)) = 1 ∧
      m.countP (fun x => decide (21 ≤ x ∧ x ≤ 30)) = 1 ∧
      m.countP (fun x => decide (31 ≤ x ∧ x ≤ 40)) = 1 ∧
      m.countP (fun x => decide (41 ≤ x ∧ x ≤ 50)) = 1 ∧
      s.countP (fun x => decide (1 ≤ x ∧ x ≤ 6)) = 1 ∧
      s.countP (fun x => decide (7 ≤ x ∧ x ≤ 12)) = 1 := by
  obtain ⟨p1, p2, p3, p4, p5, rs5, heqM, b1, b2, b3, b4, b5⟩ := balanced_main_pick_spec rs
  obtain ⟨s1, s2, rs2, heqS, e1, e2⟩ := balanced_star_pick_spec rs5
  have hred : build_line "Balanced Picks" main_counter star_counter draws rs =
      (match balanced_main_pick rs with
       | (main_nums, rs1) =>
           match balanced_star_pick rs1 with
           | (stars, rs2) => (some (main_nums, stars), rs2)) := rfl
  have hpermM := sortAsc_perm [p1, p2, p3, p4, p5]
  have hpermS := sortAsc_perm [s1, s2]
  refine ⟨sortAsc [p1, p2, p3, p4, p5], sortAsc [s1, s2], rs2, ?_, ?_, ?_, ?_, ?_, ?_, ?_, ?_⟩
  · rw [hred]
    simp only [heqM, heqS]
  all_goals rw [List.Perm.countP_eq _ (by first
    | exact hpermM
    | exact hpermS)]
  all_goals simp [List.countP_cons]
  all_goals split_ifs <;> omega

/-! ## Claim C4 -/

/-- C4, counterexample: the claim quotes the short-circuit reason string as
"not enough valid numbers to explain this line." -- the code's string is
capitalized ("Not enough ..."), so the returned reasons list is not the
claimed one. -/
theorem c4_counterexample :
    (explain_line [] [] [] [] [] "AI Mode (Blend)").2
      = ["Not enough valid numbers to explain this line."] ∧
    (explain_line [] [] [] [] [] "AI Mode (Blend)").2
      ≠ ["not enough valid numbers to explain this line."] ∧
    (safe_int_list ([] : List PyVal)).length < 2 := by
  refine ⟨?_, ?_, by decide⟩
  · decide
  · decide

/-- C4 (amended): for every input the score returned by `explain_line` is in
`[0, 100]`; and whenever fewer than 2 valid (int-coercible) main numbers are
supplied, it short-circuits, returning score exactly 0 together with the
single diagnostic reason string "Not enough valid numbers to explain this
line." (capitalized, as in the code). -/
theorem c4_explain_line_score (main_nums stars : List PyVal)
    (main_counter star_counter : List (PyVal × Int)) (main_gap : List (Int × Int))
    (strategy : String) :
    (0 ≤ (explain_line main_nums stars main_counter star_counter main_gap strategy).1 ∧
     (explain_line main_nums stars main_counter star_counter main_gap strategy).1 ≤ 100) ∧
    ((safe_int_list main_nums).length < 2 →
      explain_line main_nums stars main_counter star_counter main_gap strategy
        = (0, ["Not enough valid numbers to explain this line."])) := by
  constructor
  · simp only [explain_line]
    split
    · simp
    · constructor
      · exact le_min (by norm_num) (le_max_left 0 _)
      · exact min_le_left _ _
  · intro h
    simp only [explain_line]
    rw [if_pos (by rw [sortAsc_length]; exact h)]

/-- Witness for `c4_explain_line_score` at a concrete under-filled line. -/
theorem c4_explain_line_score_witness :
    (safe_int_list [PyVal.vInt 7]).length < 2 ∧
    explain_line [PyVal.vInt 7] [] [] [] [] "Hot Numbers"
      = (0, ["Not enough valid numbers to explain this line."]) := by
  refine ⟨by decide, ?_⟩
  exact (c4_explain_line_score [PyVal.vInt 7] [] [] [] [] "Hot Numbers").2 (by decide)

/-! ## Claim C5 -/

/-- C5, counterexample: with the "Balanced Picks" strategy (which prepends a
strategy-specific leading sentence) and a nonempty star list, the reason list
is capped at 4 by `explanations[:4]` and the star-report sentence -- here
"Lucky stars include 0 from the recent high-frequency group." -- is truncated
away, contradicting the claim that it is included for every strategy name. -/
theorem c5_counterexample :
    ((explain_line [PyVal.vInt 1, PyVal.vInt 12, PyVal.vInt 23, PyVal.vInt 34, PyVal.vInt 45]
        [PyVal.vInt 2] [] [] [] "Balanced Picks").2.length = 4) ∧
    ("Lucky stars include 0 from the recent high-frequency group."
      ∉ (explain_line [PyVal.vInt 1, PyVal.vInt 12, PyVal.vInt 23, PyVal.vInt 34, PyVal.vInt 45]
          [PyVal.vInt 2] [] [] [] "Balanced Picks").2) ∧
    safe_int_list [PyVal.vInt 2] ≠ [] := by
  refine ⟨?_, ?_, by decide⟩
  · decide
  · decide

/-- C5 (amended): with at least 2 valid main numbers the returned reasons
list has at most 4 strings; and whenever the supplied stars list has a valid
entry *and the strategy has no strategy-specific leading sentence* (i.e. it
is none of "Balanced Picks", "Overdue (Longest gap)", "Cold Numbers"), the
reasons include the sentence reporting how many of the supplied stars are
among the historical top-4 most frequent stars.  For the three strategies
with a leading sentence the star sentence is built but truncated away by the
4-item cap (see the counterexample). -/
theorem c5_explain_line_reasons (main_nums stars : List PyVal)
    (main_counter star_counter : List (PyVal × Int)) (main_gap : List (Int × Int))
    (strategy : String)
    (h2 : 2 ≤ (safe_int_list main_nums).length) :
    (explain_line main_nums stars main_counter star_counter main_gap strategy).2.length ≤ 4 ∧
    (safe_int_list stars ≠ [] →
      strategy ≠ "Balanced Picks" → strategy ≠ "Overdue (Longest gap)" →
      strategy ≠ "Cold Numbers" →
      ("Lucky stars include " ++
          toString (((( sortAsc (safe_int_list stars)).filter
            (fun s => (safe_int_list ((mostCommon star_counter 4).map Prod.fst)).contains s)).length : Int)) ++
          " from the recent high-frequency group.")
        ∈ (explain_line main_nums stars main_counter star_counter main_gap strategy).2) := by
  have hcond : ¬ ((sortAsc (safe_int_list main_nums)).length < 2) := by
    rw [sortAsc_length]
    omega
  constructor
  · simp only [explain_line]
    rw [if_neg hcond]
    exact List.length_take_le 4 _
  · intro hstars hbp hov hcold
    have hne : sortAsc (safe_int_list stars) ≠ [] := by
      intro h
      apply hstars
      have hperm := sortAsc_perm (safe_int_list stars)
      rw [h] at hperm
      exact (hperm.symm).eq_nil
    have hempty : (sortAsc (safe_int_list stars)).isEmpty = false := by
      cases h : sortAsc (safe_int_list stars) with
      | nil => exact absurd h hne
      | cons a l => rfl
    simp only [explain_line]
    rw [if_neg hcond]
    simp only [if_neg hbp, if_neg hov, if_neg hcold, hempty, Bool.false_eq_true, if_false]
    simp

/-- Witness for `c5_explain_line_reasons`: a concrete 5-number line with one
star under the "Hot Numbers" strategy (no leading sentence) does report the
star-frequency sentence. -/
theorem c5_explain_line_reasons_witness :
    (2 ≤ (safe_int_list [PyVal.vInt 1, PyVal.vInt 12, PyVal.vInt 23, PyVal.vInt 34,
        PyVal.vInt 45]).length ∧ safe_int_list [PyVal.vInt 2] ≠ []) ∧
    ("Lucky stars include 0 from the recent high-frequency group."
      ∈ (explain_line [PyVal.vInt 1, PyVal.vInt 12, PyVal.vInt 23, PyVal.vInt 34, PyVal.vInt 45]
          [PyVal.vInt 2] [] [] [] "Hot Numbers").2) := by
  refine ⟨⟨by decide, by decide⟩, ?_⟩
  have h := (c5_explain_line_reasons
      [PyVal.vInt 1, PyVal.vInt 12, PyVal.vInt 23, PyVal.vInt 34, PyVal.vInt 45]
      [PyVal.vInt 2] [] [] [] "Hot Numbers" (by decide)).2
      (by decide) (by decide) (by decide) (by decide)
  have hstr : ("Lucky stars include " ++
      toString (((( sortAsc (safe_int_list [PyVal.vInt 2])).filter
        (fun s => (safe_int_list ((mostCommon ([] : List (PyVal × Int)) 4).map
          Prod.fst)).contains s)).length : Int)) ++
      " from the recent high-frequency group.")
      = "Lucky stars include 0 from the recent high-frequency group." := by decide
  rwa [hstr] at h

/-! ## Claim C7 -/

theorem encodeDate_nonneg (d : Sdate) : 0 ≤ encodeDate d := by
  unfold encodeDate
  positivity

theorem parse_draw_timestamp_eq_neg_one_iff (dr : RawDraw) :
    parse_draw_timestamp dr = -1 ↔
      (parse_date_like dr.date = none ∧ parse_date_like dr.drawDate = none ∧
       parse_date_like dr.draw_date = none) := by
  unfold parse_draw_timestamp
  cases h1 : parse_date_like dr.date with
  | some d =>
      simp only [h1]
      constructor
      · intro h
        have := encodeDate_nonneg d
        omega
      · rintro ⟨h, -, -⟩
        exact Option.noConfusion h
  | none =>
      cases h2 : parse_date_like dr.drawDate with
      | some d =>
          simp only [h1, h2]
          constructor
          · intro h
            have := encodeDate_nonneg d
            omega
          · rintro ⟨-, h, -⟩
            exact Option.noConfusion h
      | none =>
          cases h3 : parse_date_like dr.draw_date with
          | some d =>
              simp only [h1, h2, h3]
              constructor
              · intro h
                have := encodeDate_nonneg d
                omega
              · rintro ⟨-, -, h⟩
                exact Option.noConfusion h
          | none =>
              simp [h1, h2, h3]

theorem parse_draw_timestamp_nonneg_of_ne (dr : RawDraw)
    (h : parse_draw_timestamp dr ≠ -1) : 0 ≤ parse_draw_timestamp dr := by
  unfold parse_draw_timestamp at h ⊢
  cases h1 : parse_date_like dr.date with
  | some d => simp only [h1]; exact encodeDate_nonneg d
  | none =>
      cases h2 : parse_date_like dr.drawDate with
      | some d => simp only [h1, h2]; exact encodeDate_nonneg d
      | none =>
          cases h3 : parse_date_like dr.draw_date with
          | some d => simp only [h1, h2, h3]; exact encodeDate_nonneg d
          | none => simp [h1, h2, h3] at h

/-- C7: `prepare_draws` sorts the normalized draws newest-first by parsed
date and truncates to the window; date parsing of a text value tries
ISO-8601 (after the `Z` → `+00:00` substitution), then `%Y-%m-%d`, then
`%d/%m/%Y`, the first success winning, and a record whose date fails all
three parses gets the sentinel key (`float("-inf")`, embedded as `-1`) which
places it after every record with a valid date in the newest-first order. -/
theorem c7_prepare_draws (draws : List RawDraw) (history_n : Nat) (s : String) (d : Sdate) :
    (fromisoformatCore (replaceZ (pyStrip s.toList)) = some d →
        parse_date_like (PyVal.vStr s) = some d) ∧
    (fromisoformatCore (replaceZ (pyStrip s.toList)) = none →
        strptimeYMD (pyStrip s.toList) = some d →
        parse_date_like (PyVal.vStr s) = some d) ∧
    (fromisoformatCore (replaceZ (pyStrip s.toList)) = none →
        strptimeYMD (pyStrip s.toList) = none →
        strptimeDMY (pyStrip s.toList) = some d →
        parse_date_like (PyVal.vStr s) = some d) ∧
    (fromisoformatCore (replaceZ (pyStrip s.toList)) = none →
        strptimeYMD (pyStrip s.toList) = none →
        strptimeDMY (pyStrip s.toList) = none →
        parse_date_like (PyVal.vStr s) = none) ∧
    (∀ dr : RawDraw, parse_draw_timestamp dr = -1 ↔
      (parse_date_like dr.date = none ∧ parse_date_like dr.drawDate = none ∧
       parse_date_like dr.draw_date = none)) ∧
    (prepare_draws draws history_n
        = ((draws.map normalize_draw_dict).insertionSort
            (fun a b => parse_draw_timestamp b ≤ parse_draw_timestamp a)).take history_n) ∧
    List.Perm ((draws.map normalize_draw_dict).insertionSort
        (fun a b => parse_draw_timestamp b ≤ parse_draw_timestamp a))
      (draws.map normalize_draw_dict) ∧
    ((draws.map normalize_draw_dict).insertionSort
        (fun a b => parse_draw_timestamp b ≤ parse_draw_timestamp a)).Sorted
      (fun a b => parse_draw_timestamp b ≤ parse_draw_timestamp a) ∧
    ((draws.map normalize_draw_dict).insertionSort
        (fun a b => parse_draw_timestamp b ≤ parse_draw_timestamp a)).Pairwise
      (fun a b => parse_draw_timestamp b ≠ -1 → parse_draw_timestamp a ≠ -1) := by
  have hstrip : pyStrip ("" : String).toList = [] := rfl
  refine ⟨?_, ?_, ?_, ?_, parse_draw_timestamp_eq_neg_one_iff, rfl,
    List.perm_insertionSort _ _, List.sorted_insertionSort _ _, ?_⟩
  · intro h
    have hsne : s ≠ "" := by
      intro heq
      subst heq
      rw [hstrip] at h
      exact Option.noConfusion h
    have hcond : ¬(PyVal.vStr s = PyVal.vNone ∨ PyVal.vStr s = PyVal.vStr "") := by
      rintro (h1 | h1)
      · exact PyVal.noConfusion h1
      · exact hsne (by injection h1)
    have htext : ¬ ((pyStrip s.toList).isEmpty = true) := by
      intro hemp
      have hnil : pyStrip s.toList = [] := by
        cases hl : pyStrip s.toList with
        | nil => rfl
        | cons a l => rw [hl] at hemp; exact Bool.noConfusion hemp
      rw [hnil] at h
      exact Option.noConfusion h
    simp only [parse_date_like, strOfPy, if_neg hcond]
    rw [if_neg htext, h]
  · intro hiso hymd
    have hsne : s ≠ "" := by
      intro heq
      subst heq
      rw [hstrip] at hymd
      exact Option.noConfusion hymd
    have hcond : ¬(PyVal.vStr s = PyVal.vNone ∨ PyVal.vStr s = PyVal.vStr "") := by
      rintro (h1 | h1)
      · exact PyVal.noConfusion h1
      · exact hsne (by injection h1)
    have htext : ¬ ((pyStrip s.toList).isEmpty = true) := by
      intro hemp
      have hnil : pyStrip s.toList = [] := by
        cases hl : pyStrip s.toList with
        | nil => rfl
        | cons a l => rw [hl] at hemp; exact Bool.noConfusion hemp
      rw [hnil] at hymd
      exact Option.noConfusion hymd
    simp only [parse_date_like, strOfPy, if_neg hcond]
    rw [if_neg htext, hiso, hymd]
  · intro hiso hymd hdmy
    have hsne : s ≠ "" := by
      intro heq
      subst heq
      rw [hstrip] at hdmy
      exact Option.noConfusion hdmy
    have hcond : ¬(PyVal.vStr s = PyVal.vNone ∨ PyVal.vStr s = PyVal.vStr "") := by
      rintro (h1 | h1)
      · exact PyVal.noConfusion h1
      · exact hsne (by injection h1)
    have htext : ¬ ((pyStrip s.toList).isEmpty = true) := by
      intro hemp
      have hnil : pyStrip s.toList = [] := by
        cases hl : pyStrip s.toList with
        | nil => rfl
        | cons a l => rw [hl] at hemp; exact Bool.noConfusion hemp
      rw [hnil] at hdmy
      exact Option.noConfusion hdmy
    simp only [parse_date_like, strOfPy, if_neg hcond]
    rw [if_neg htext, hiso, hymd, hdmy]
  · intro hiso hymd hdmy
    by_cases hs : s = ""
    · subst hs
      rfl
    · have hcond : ¬(PyVal.vStr s = PyVal.vNone ∨ PyVal.vStr s = PyVal.vStr "") := by
        rintro (h1 | h1)
        · exact PyVal.noConfusion h1
        · exact hs (by injection h1)
      by_cases htext : (pyStrip s.toList).isEmpty = true
      · simp only [parse_date_like, strOfPy, if_neg hcond]
        rw [if_pos htext]
      · simp only [parse_date_like, strOfPy, if_neg hcond]
        rw [if_neg htext, hiso, hymd, hdmy]
  · have hsorted := List.sorted_insertionSort
        (fun a b : RawDraw => parse_draw_timestamp b ≤ parse_draw_timestamp a)
        (draws.map normalize_draw_dict)
    refine hsorted.imp ?_
    intro a b hab hbne
    have hb := parse_draw_timestamp_nonneg_of_ne b hbne
    intro ha
    rw [ha] at hab
    omega

/-- Witness for `c7_prepare_draws` at a concrete mixed history: an ISO
datetime with a `Z` suffix parses via `fromisoformat`, `"2026-3-3"` falls
through to `%Y-%m-%d`, and an unparseable record sorts behind the dated
one. -/
theorem c7_prepare_draws_witness :
    (fromisoformatCore (replaceZ (pyStrip ("2026-03-03T20:15:00Z" : String).toList))
        = some ⟨2026, 3, 3⟩ ∧
     parse_date_like (PyVal.vStr "2026-03-03T20:15:00Z") = some ⟨2026, 3, 3⟩) ∧
    (fromisoformatCore (replaceZ (pyStrip ("2026-3-3" : String).toList)) = none ∧
     strptimeYMD (pyStrip ("2026-3-3" : String).toList) = some ⟨2026, 3, 3⟩ ∧
     parse_date_like (PyVal.vStr "2026-3-3") = some ⟨2026, 3, 3⟩) ∧
    prepare_draws
        [{ date := PyVal.vStr "garbage" }, { date := PyVal.vStr "2026-03-03" }] 2
      = [{ date := PyVal.vStr "2026-03-03" }, { date := PyVal.vStr "garbage" }] := by
  refine ⟨⟨by decide, ?_⟩, ⟨by decide, by decide, ?_⟩, ?_⟩
  · exact (c7_prepare_draws [] 0 "2026-03-03T20:15:00Z" ⟨2026, 3, 3⟩).1 (by decide)
  · exact (c7_prepare_draws [] 0 "2026-3-3" ⟨2026, 3, 3⟩).2.1 (by decide) (by decide)
  · decide

end EMPred
